import Mathlib

/-!
Verification development for the wsnet2 lobby and game services.

Bytes are modelled as natural numbers (values below 256 where produced by
the codec), byte strings as lists of naturals.  Go runtime panics (index
out of range on a nil slice, failed type assertions) are modelled by the
value none of an Option result; fallible functions return Except.
-/

namespace Wsnet2

/-- Modelled from the spec: the type tags of the self-describing binary
codec (the binary package itself is not part of the provided sources).
The spec fixes the set of tags but not their byte values; the values
chosen here are an arbitrary distinct assignment. -/
inductive BinType where
  | TNull | TFalse | TTrue
  | TByte | TSByte | TUShort | TShort | TUInt | TInt | TULong | TLong
  | TFloat | TDouble
  | TStr8 | TStr16
  | TObj | TList | TDict
  | TBools | TBytes | TSBytes | TUShorts | TShorts | TUInts | TInts
  | TULongs | TLongs | TFloats | TDoubles
deriving DecidableEq, Repr

/-- Modelled from the spec: the tag byte of each codec type. -/
def tagByte : BinType → Nat
  | .TNull => 0 | .TFalse => 1 | .TTrue => 2
  | .TByte => 3 | .TSByte => 4 | .TUShort => 5 | .TShort => 6
  | .TUInt => 7 | .TInt => 8 | .TULong => 9 | .TLong => 10
  | .TFloat => 11 | .TDouble => 12
  | .TStr8 => 13 | .TStr16 => 14
  | .TObj => 15 | .TList => 16 | .TDict => 17
  | .TBools => 18 | .TBytes => 19 | .TSBytes => 20 | .TUShorts => 21
  | .TShorts => 22 | .TUInts => 23 | .TInts => 24 | .TULongs => 25
  | .TLongs => 26 | .TFloats => 27 | .TDoubles => 28

/-- Modelled from the spec: decode a tag byte back to a codec type. -/
def binTypeOfByte : Nat → Option BinType
  | 0 => some .TNull | 1 => some .TFalse | 2 => some .TTrue
  | 3 => some .TByte | 4 => some .TSByte | 5 => some .TUShort
  | 6 => some .TShort | 7 => some .TUInt | 8 => some .TInt
  | 9 => some .TULong | 10 => some .TLong
  | 11 => some .TFloat | 12 => some .TDouble
  | 13 => some .TStr8 | 14 => some .TStr16
  | 15 => some .TObj | 16 => some .TList | 17 => some .TDict
  | 18 => some .TBools | 19 => some .TBytes | 20 => some .TSBytes
  | 21 => some .TUShorts | 22 => some .TShorts | 23 => some .TUInts
  | 24 => some .TInts | 25 => some .TULongs | 26 => some .TLongs
  | 27 => some .TFloats | 28 => some .TDoubles
  | _ => none

/-- Modelled from the spec: payload width in bytes of each fixed-width
numeric type (binary.NumTypeDataSize). -/
def NumTypeDataSize : BinType → Nat
  | .TByte => 1 | .TSByte => 1
  | .TUShort => 2 | .TShort => 2
  | .TUInt => 4 | .TInt => 4
  | .TULong => 8 | .TLong => 8
  | .TFloat => 4 | .TDouble => 8
  | _ => 0

/-- Modelled from the spec: element type of each homogeneous numeric list
tag (binary.NumListElementType); TBools is handled separately by the
query engine, matching the source. -/
def NumListElementType : BinType → Option BinType
  | .TBytes => some .TByte | .TSBytes => some .TSByte
  | .TUShorts => some .TUShort | .TShorts => some .TShort
  | .TUInts => some .TUInt | .TInts => some .TInt
  | .TULongs => some .TULong | .TLongs => some .TLong
  | .TFloats => some .TFloat | .TDoubles => some .TDouble
  | _ => none

/-- Modelled from the spec: the error classes of the codec (empty,
truncated, unknown-tag, type-mismatch).  errFuel is an artifact of the
fuelled embedding and is unreachable for the fuel amounts used. -/
inductive UErr where
  | errEmpty | errTruncated | errUnknownTag | errTypeMismatch | errFuel
deriving DecidableEq, Repr

/-- Modelled from the spec: the dynamic values handled by the codec and
by UnmarshalRecursive.  The first group of constructors are the raw
shapes produced by Unmarshal (dictv, listv and objv keep the raw encoded
bytes of their components, as binary.Dict, binary.List and binary.Obj
do); rawObj, mapv and listr are the cooked shapes produced only by
UnmarshalRecursive. -/
inductive IVal where
  | null
  | boolv (b : Bool)
  | intv (t : BinType) (v : Nat)
  | floatv (t : BinType) (bits : Nat)
  | strv (s : List Nat)
  | boolsv (bs : List Bool)
  | numsv (t : BinType) (payload : List Nat)
  | objv (classId : Nat) (body : List Nat)
  | listv (elems : List (List Nat))
  | dictv (entries : List (List Nat × List Nat))
  | rawObj (classId : Nat) (body : Option IVal)
  | mapv (entries : List (List Nat × IVal))
  | listr (elems : List IVal)
deriving Repr

/-- Modelled from the spec: big-endian value of a byte string. -/
def beNat (bs : List Nat) : Nat := bs.foldl (fun a b => a * 256 + b) 0

mutual
/-- Modelled from the spec: number of bytes occupied by the first encoded
value of a byte string.  Used to delimit dict entry values, whose size is
not carried by a length prefix.  The fuel argument bounds the nesting
depth of dicts; any fuel above the byte length of the input suffices. -/
def valueSizeF : Nat → List Nat → Except UErr Nat
  | 0, _ => .error .errFuel
  | _ + 1, [] => .error .errEmpty
  | f + 1, t :: rest =>
    match binTypeOfByte t with
    | none => .error .errUnknownTag
    | some bt =>
      match bt with
      | .TNull | .TFalse | .TTrue => .ok 1
      | .TByte | .TSByte | .TUShort | .TShort | .TUInt | .TInt
      | .TULong | .TLong | .TFloat | .TDouble =>
        if rest.length < NumTypeDataSize bt then .error .errTruncated
        else .ok (1 + NumTypeDataSize bt)
      | .TStr8 =>
        match rest with
        | [] => .error .errTruncated
        | len :: r => if r.length < len then .error .errTruncated else .ok (2 + len)
      | .TStr16 =>
        match rest with
        | hi :: lo :: r =>
          if r.length < hi * 256 + lo then .error .errTruncated
          else .ok (3 + (hi * 256 + lo))
        | _ => .error .errTruncated
      | .TObj =>
        match rest with
        | _ :: hi :: lo :: r =>
          if r.length < hi * 256 + lo then .error .errTruncated
          else .ok (4 + (hi * 256 + lo))
        | _ => .error .errTruncated
      | .TList =>
        match rest with
        | hi :: lo :: r =>
          match listSizeF (hi * 256 + lo) r with
          | .error e => .error e
          | .ok s => .ok (3 + s)
        | _ => .error .errTruncated
      | .TDict =>
        match rest with
        | [] => .error .errTruncated
        | cnt :: r =>
          match dictSizeF f cnt r with
          | .error e => .error e
          | .ok s => .ok (2 + s)
      | .TBools =>
        match rest with
        | hi :: lo :: r =>
          if r.length < hi * 256 + lo then .error .errTruncated
          else .ok (3 + (hi * 256 + lo))
        | _ => .error .errTruncated
      | .TBytes | .TSBytes | .TUShorts | .TShorts | .TUInts | .TInts
      | .TULongs | .TLongs | .TFloats | .TDoubles =>
        match rest with
        | hi :: lo :: r =>
          match NumListElementType bt with
          | none => .error .errUnknownTag
          | some et =>
            if r.length < (hi * 256 + lo) * NumTypeDataSize et then .error .errTruncated
            else .ok (3 + (hi * 256 + lo) * NumTypeDataSize et)
        | _ => .error .errTruncated

/-- Modelled from the spec: total size of a run of count length-prefixed
list elements (u16 length prefix per element). -/
def listSizeF : Nat → List Nat → Except UErr Nat
  | 0, _ => .ok 0
  | c + 1, src =>
    match src with
    | hi :: lo :: r =>
      if r.length < hi * 256 + lo then .error .errTruncated
      else
        match listSizeF c (r.drop (hi * 256 + lo)) with
        | .error e => .error e
        | .ok s => .ok (2 + (hi * 256 + lo) + s)
    | _ => .error .errTruncated

/-- Modelled from the spec: total size of a run of count dict entries,
each a u8 key length, the key bytes and one encoded value. -/
def dictSizeF : Nat → Nat → List Nat → Except UErr Nat
  | 0, _, _ => .error .errFuel
  | _ + 1, 0, _ => .ok 0
  | f + 1, c + 1, src =>
    match src with
    | [] => .error .errTruncated
    | klen :: r =>
      if r.length < klen then .error .errTruncated
      else
        match valueSizeF f (r.drop klen) with
        | .error e => .error e
        | .ok vs =>
          match dictSizeF f c ((r.drop klen).drop vs) with
          | .error e => .error e
          | .ok ds => .ok (1 + klen + vs + ds)
end

/-- Modelled from the spec: parse a run of count length-prefixed list
elements, keeping the raw encoded bytes of each element (as binary.List
does).  Returns the elements and the number of bytes consumed. -/
def listElemsF : Nat → List Nat → Except UErr (List (List Nat) × Nat)
  | 0, _ => .ok ([], 0)
  | c + 1, src =>
    match src with
    | hi :: lo :: r =>
      if r.length < hi * 256 + lo then .error .errTruncated
      else
        match listElemsF c (r.drop (hi * 256 + lo)) with
        | .error e => .error e
        | .ok (es, n) => .ok (r.take (hi * 256 + lo) :: es, 2 + (hi * 256 + lo) + n)
    | _ => .error .errTruncated

/-- Modelled from the spec: parse a run of count dict entries, keeping
the raw encoded bytes of each value (as binary.Dict does).  Returns the
entries and the number of bytes consumed. -/
def dictEntriesF (f : Nat) : Nat → List Nat → Except UErr (List (List Nat × List Nat) × Nat)
  | 0, _ => .ok ([], 0)
  | c + 1, src =>
    match src with
    | [] => .error .errTruncated
    | klen :: r =>
      if r.length < klen then .error .errTruncated
      else
        match valueSizeF f (r.drop klen) with
        | .error e => .error e
        | .ok vs =>
          if (r.drop klen).length < vs then .error .errTruncated
          else
            match dictEntriesF f c ((r.drop klen).drop vs) with
            | .error e => .error e
            | .ok (es, n) =>
              .ok ((r.take klen, (r.drop klen).take vs) :: es, 1 + klen + vs + n)

/-- Modelled from the spec: decode the first value of a byte string,
returning the value and the number of bytes consumed
(binary.Unmarshal).  The fuel argument is only consumed when measuring
dict entry values. -/
def unmarshalCore (f : Nat) : List Nat → Except UErr (IVal × Nat)
  | [] => .error .errEmpty
  | t :: rest =>
    match binTypeOfByte t with
    | none => .error .errUnknownTag
    | some bt =>
      match bt with
      | .TNull => .ok (.null, 1)
      | .TFalse => .ok (.boolv false, 1)
      | .TTrue => .ok (.boolv true, 1)
      | .TByte | .TSByte | .TUShort | .TShort | .TUInt | .TInt
      | .TULong | .TLong =>
        if rest.length < NumTypeDataSize bt then .error .errTruncated
        else .ok (.intv bt (beNat (rest.take (NumTypeDataSize bt))), 1 + NumTypeDataSize bt)
      | .TFloat | .TDouble =>
        if rest.length < NumTypeDataSize bt then .error .errTruncated
        else .ok (.floatv bt (beNat (rest.take (NumTypeDataSize bt))), 1 + NumTypeDataSize bt)
      | .TStr8 =>
        match rest with
        | [] => .error .errTruncated
        | len :: r =>
          if r.length < len then .error .errTruncated
          else .ok (.strv (r.take len), 2 + len)
      | .TStr16 =>
        match rest with
        | hi :: lo :: r =>
          if r.length < hi * 256 + lo then .error .errTruncated
          else .ok (.strv (r.take (hi * 256 + lo)), 3 + (hi * 256 + lo))
        | _ => .error .errTruncated
      | .TObj =>
        match rest with
        | cid :: hi :: lo :: r =>
          if r.length < hi * 256 + lo then .error .errTruncated
          else .ok (.objv cid (r.take (hi * 256 + lo)), 4 + (hi * 256 + lo))
        | _ => .error .errTruncated
      | .TList =>
        match rest with
        | hi :: lo :: r =>
          match listElemsF (hi * 256 + lo) r with
          | .error e => .error e
          | .ok (es, n) => .ok (.listv es, 3 + n)
        | _ => .error .errTruncated
      | .TDict =>
        match rest with
        | [] => .error .errTruncated
        | cnt :: r =>
          match dictEntriesF f cnt r with
          | .error e => .error e
          | .ok (es, n) => .ok (.dictv es, 2 + n)
      | .TBools =>
        match rest with
        | hi :: lo :: r =>
          if r.length < hi * 256 + lo then .error .errTruncated
          else .ok (.boolsv ((r.take (hi * 256 + lo)).map (fun b => b != 0)), 3 + (hi * 256 + lo))
        | _ => .error .errTruncated
      | .TBytes | .TSBytes | .TUShorts | .TShorts | .TUInts | .TInts
      | .TULongs | .TLongs | .TFloats | .TDoubles =>
        match rest with
        | hi :: lo :: r =>
          match NumListElementType bt with
          | none => .error .errUnknownTag
          | some et =>
            if r.length < (hi * 256 + lo) * NumTypeDataSize et then .error .errTruncated
            else .ok (.numsv bt (r.take ((hi * 256 + lo) * NumTypeDataSize et)),
                      3 + (hi * 256 + lo) * NumTypeDataSize et)
        | _ => .error .errTruncated

/-- Modelled from the spec: binary.Unmarshal.  The fuel passed to
unmarshalCore exceeds the input length, which bounds dict nesting. -/
def Unmarshal (src : List Nat) : Except UErr (IVal × Nat) :=
  unmarshalCore (src.length + 1) src

/-- Modelled from the spec: binary.UnmarshalAs rejects a first value
whose tag is outside the allowed set with a type-mismatch error. -/
def UnmarshalAs (src : List Nat) (allowed : List BinType) : Except UErr (IVal × Nat) :=
  match src with
  | [] => .error .errEmpty
  | t :: _ =>
    match binTypeOfByte t with
    | none => .error .errUnknownTag
    | some bt => if bt ∈ allowed then Unmarshal src else .error .errTypeMismatch

/-- Comparison operators of a property query (lobby OpType). -/
inductive OpType where
  | OpEqual | OpNot | OpLessThan | OpLessThanOrEqual
  | OpGreaterThan | OpGreaterThanOrEqual | OpContain | OpNotContain
deriving DecidableEq, Repr

/-- A single property query (lobby PropQuery).  The key is kept as its
byte string. -/
structure PropQuery where
  Key : List Nat
  Op : OpType
  Val : List Nat
deriving DecidableEq, Repr

/-- A decoded public-props dict (binary.Dict): ordered key-value pairs of
byte strings. -/
def Dict := List (List Nat × List Nat)
deriving DecidableEq, Repr

/-- Lookup in a props dict; a missing key yields the empty byte string,
as indexing a Go map with a missing key yields a nil slice. -/
def dictGet (d : Dict) (k : List Nat) : List Nat :=
  (List.lookup k d).getD []

/-- Lexicographic byte-string comparison (bytes.Compare). -/
def bytesCompare : List Nat → List Nat → Ordering
  | [], [] => .eq
  | [], _ :: _ => .lt
  | _ :: _, [] => .gt
  | a :: as, b :: bs =>
    match compare a b with
    | .eq => bytesCompare as bs
    | o => o

/-- Scan of the packed elements of a homogeneous numeric list, mirroring
the loop of PropQuery.containNum: starting at a suffix of the value
bytes, compare each elemSize-wide chunk with the query payload; a final
chunk shorter than elemSize makes the Go slice expression panic, which is
modelled as none.  The source never calls this with elemSize zero. -/
def scanChunks (es : Nat) (qData : List Nat) : List Nat → Option Bool
  | [] => some false
  | b :: r =>
    if r.length + 1 < es then none
    else if (b :: r).take es = qData then some true
    else scanChunks es qData (r.drop (es - 1))
termination_by l => l.length
decreasing_by simp [List.length_drop]; omega

/-- PropQuery.containNum: membership of the query payload among the
packed fixed-width elements of a homogeneous numeric list.  Reading the
first byte of an empty query value panics (none). -/
def PropQuery.containNum (q : PropQuery) (val : List Nat) (elemType : BinType) : Option Bool :=
  match q.Val with
  | [] => none
  | qt :: qData =>
    if qt ≠ tagByte elemType then some (decide (q.Op = .OpNotContain))
    else
      match scanChunks (NumTypeDataSize elemType) qData (val.drop 3) with
      | none => none
      | some true => some (decide (q.Op = .OpContain))
      | some false => some (decide (q.Op = .OpNotContain))

/-- PropQuery.containBool: decode the query value as a bool and the
stored value as a bool list, then test membership.  Decode failures yield
the NotContain polarity, as in the source. -/
def PropQuery.containBool (q : PropQuery) (val : List Nat) : Option Bool :=
  match UnmarshalAs q.Val [.TTrue, .TFalse] with
  | .error _ => some (decide (q.Op = .OpNotContain))
  | .ok (qv, _) =>
    match qv with
    | .boolv qb =>
      match UnmarshalAs val [.TBools] with
      | .error _ => some (decide (q.Op = .OpNotContain))
      | .ok (.boolsv bs, _) =>
        if bs.contains qb then some (decide (q.Op = .OpContain))
        else some (decide (q.Op = .OpNotContain))
      | .ok _ => none
    | _ => none

/-- PropQuery.contain: dispatch on the stored value tag.  An empty
stored value makes the Go expression val at index 0 panic (none); an
unknown tag or a non-list tag returns false for both operators, as the
source does after the switch. -/
def PropQuery.contain (q : PropQuery) (val : List Nat) : Option Bool :=
  match val with
  | [] => none
  | t :: _ =>
    if t = tagByte .TNull then some (decide (q.Op = .OpNotContain))
    else if t = tagByte .TList then
      match UnmarshalAs val [.TList] with
      | .error _ => some (decide (q.Op = .OpNotContain))
      | .ok (.listv elems, _) =>
        if elems.contains q.Val then some (decide (q.Op = .OpContain))
        else some (decide (q.Op = .OpNotContain))
      | .ok _ => none
    else if t = tagByte .TBools then q.containBool val
    else
      match binTypeOfByte t with
      | some lt =>
        match NumListElementType lt with
        | some et => q.containNum val et
        | none => some false
      | none => some false

/-- PropQuery.match.  The source returns an error for an operator outside
the eight declared constants; with OpType total that branch is
unreachable, so the result is an Option whose none means a panic inside
contain. -/
def PropQuery.matchQ (q : PropQuery) (val : List Nat) : Option Bool :=
  match q.Op with
  | .OpContain | .OpNotContain => q.contain val
  | .OpEqual => some (decide (bytesCompare val q.Val = .eq))
  | .OpNot => some (decide (bytesCompare val q.Val ≠ .eq))
  | .OpLessThan => some (decide (bytesCompare val q.Val = .lt))
  | .OpLessThanOrEqual => some (decide (bytesCompare val q.Val ≠ .gt))
  | .OpGreaterThan => some (decide (bytesCompare val q.Val = .gt))
  | .OpGreaterThanOrEqual => some (decide (bytesCompare val q.Val ≠ .lt))

/-- PropQueries.match: conjunction over the AND-group, evaluated left to
right with short-circuit on the first non-matching query; a panic inside
any evaluated query propagates. -/
def PropQueriesMatch : List PropQuery → Dict → Option Bool
  | [], _ => some true
  | q :: rest, props =>
    match q.matchQ (dictGet props q.Key) with
    | none => none
    | some false => some false
    | some true => PropQueriesMatch rest props

/-- Room row as used by the lobby (pb.RoomInfo, restricted to the fields
the modelled operations read). -/
structure RoomInfo where
  Id : String
  HostId : Nat
  Visible : Bool
  Joinable : Bool
  Watchable : Bool
  Number : Nat
  SearchGroup : Nat
  PublicProps : List Nat
deriving DecidableEq, Repr

/-- Mask test of filter: a room is kept when each enabled mask finds the
corresponding flag set (the source skips a room when checkJoinable is on
and the room is not joinable, and likewise for watchable). -/
def passMask (j w : Bool) (r : RoomInfo) : Bool :=
  (!j || r.Joinable) && (!w || r.Watchable)

/-- Inner loop of filter over the query groups: the first group that
matches selects the room (OR of AND-groups); a panic in an evaluated
group propagates, and an empty group list yields false here (the source
special-cases it before this loop). -/
def anyGroupMatch : List (List PropQuery) → Dict → Option Bool
  | [], _ => some false
  | g :: gs, d =>
    match PropQueriesMatch g d with
    | none => none
    | some true => some true
    | some false => anyGroupMatch gs d

/-- Main loop of filter over (room, props) pairs.  lim is the remaining
capacity: the source appends and then breaks once the output reaches the
limit, so an append with lim at one ends the loop. -/
def filterAux (qs : List (List PropQuery)) (j w : Bool) :
    List (RoomInfo × Dict) → Nat → Option (List RoomInfo)
  | [], _ => some []
  | (r, d) :: rest, lim =>
    if !(passMask j w r) then filterAux qs j w rest lim
    else if qs.isEmpty then
      if lim ≤ 1 then some [r] else (filterAux qs j w rest (lim - 1)).map (r :: ·)
    else
      match anyGroupMatch qs d with
      | none => none
      | some true =>
        if lim ≤ 1 then some [r] else (filterAux qs j w rest (lim - 1)).map (r :: ·)
      | some false => filterAux qs j w rest lim

/-- Effective limit of filter: a zero limit or one above the room count
is replaced by the room count, per the source. -/
def effLimit (roomsLen L : Nat) : Nat :=
  if L = 0 ∨ roomsLen < L then roomsLen else L

/-- The lobby filter over parallel slices of rooms and decoded props. -/
def filter (rooms : List RoomInfo) (props : List Dict)
    (qs : List (List PropQuery)) (L : Nat) (j w : Bool) : Option (List RoomInfo) :=
  filterAux qs j w (rooms.zip props) (effLimit rooms.length L)

/-- Error carried back to the HTTP layer: a trace message and an optional
attached status tag (withStatus). -/
structure LobbyErr where
  msg : String
  status : Option (Nat × String)
deriving DecidableEq, Repr

/-- Result returned by the room-birth and join paths (pb.JoinedRoomRes,
restricted to the fields the modelled operations produce). -/
structure JoinedRoomRes where
  roomId : String
  players : List String
  token : String
  masterId : String
  deadline : Nat
deriving DecidableEq, Repr

/-- Status code of a result, none for success or a status-less error. -/
def resStatus (r : Except LobbyErr JoinedRoomRes) : Option (Nat × String) :=
  match r with
  | .ok _ => none
  | .error e => e.status

/-- Remote gRPC status codes (google.golang.org/grpc/codes). -/
inductive GrpcCode where
  | OK | Cancelled | Unknown | InvalidArgument | DeadlineExceeded
  | NotFound | AlreadyExists | PermissionDenied | ResourceExhausted
  | FailedPrecondition | Aborted | OutOfRange | Unimplemented
  | Internal | Unavailable | DataLoss | Unauthenticated
deriving DecidableEq, Repr

/-- Outcome of a remote gRPC call: success, an error carrying a status
code (status.FromError succeeded), or a plain error (none). -/
def RemoteResult := Except (Option GrpcCode) JoinedRoomRes

/-- Error classification of RoomService.Create applied to the remote
Create outcome. -/
def createResult (remote : RemoteResult) : Except LobbyErr JoinedRoomRes :=
  match remote with
  | .ok r => .ok r
  | .error none => .error ⟨"Create: gRPC Create", none⟩
  | .error (some c) =>
    match c with
    | .InvalidArgument => .error ⟨"Create: gRPC Create", some (400, "Invalid argument")⟩
    | .ResourceExhausted =>
      .error ⟨"Create: gRPC Create", some (503, "Reached to the max room number")⟩
    | _ => .error ⟨"Create: gRPC Create", none⟩

/-- Error classification of RoomService.join applied to the remote Join
outcome. -/
def joinResult (remote : RemoteResult) : Except LobbyErr JoinedRoomRes :=
  match remote with
  | .ok r => .ok r
  | .error none => .error ⟨"join: gRPC Join", none⟩
  | .error (some c) =>
    match c with
    | .NotFound => .error ⟨"join: gRPC Join", some (200, "No joinable room found")⟩
    | .FailedPrecondition => .error ⟨"join: gRPC Join", some (200, "No joinable room found")⟩
    | .ResourceExhausted => .error ⟨"join: gRPC Join", some (200, "Room full")⟩
    | .AlreadyExists => .error ⟨"join: gRPC Join", some (409, "Already exists")⟩
    | .InvalidArgument => .error ⟨"join: gRPC Join", some (400, "Invalid argument")⟩
    | _ => .error ⟨"join: gRPC Join", none⟩

/-- Test used by JoinAtRandom to abort on a 400-classified error. -/
def is400 (e : LobbyErr) : Bool :=
  match e.status with
  | some (s, _) => s == 400
  | none => false

/-- Candidate loop of JoinAtRandom.  The index numbers the attempts:
ctxDone i tells whether the deadline has fired before attempt i, and
att i is the outcome of the join call of attempt i (the i-th candidate
of the shuffled list). -/
def joinAtRandomLoop (ctxDone : Nat → Bool) (att : Nat → Except LobbyErr JoinedRoomRes) :
    List RoomInfo → Nat → Except LobbyErr JoinedRoomRes
  | [], _ => .error ⟨"JoinAtRandom: Failed to join all rooms", some (200, "No joinable room found")⟩
  | _ :: rest, i =>
    if ctxDone i then .error ⟨"JoinAtRandom: timeout", none⟩
    else
      match att i with
      | .ok res => .ok res
      | .error e => if is400 e then .error e else joinAtRandomLoop ctxDone att rest (i + 1)

/-- RoomService.JoinAtRandom: filter the cached candidates (limit 1000,
joinable mask on), shuffle, then try each in turn.  The shuffle and the
per-attempt outcomes are inputs of the model; none is a panic inside the
filter. -/
def JoinAtRandom (rooms : List RoomInfo) (props : List Dict)
    (queries : List (List PropQuery)) (shuffle : List RoomInfo → List RoomInfo)
    (ctxDone : Nat → Bool) (att : Nat → Except LobbyErr JoinedRoomRes) :
    Option (Except LobbyErr JoinedRoomRes) :=
  (filter rooms props queries 1000 true false).map
    (fun cand => joinAtRandomLoop ctxDone att (shuffle cand) 0)

/-- Props decoding used by the by-id and by-number paths
(lobby unmarshalProps): the blob must decode to a Dict. -/
def unmarshalProps (props : List Nat) : Except UErr Dict :=
  match Unmarshal props with
  | .error e => .error e
  | .ok (.dictv entries, _) => .ok entries
  | .ok _ => .error .errTypeMismatch

/-- RoomService.WatchById.  The row argument is the result of the SELECT
with watchable = 1 (none when no row matched); dispatch stands for the
watch call on the filtered room.  none is a panic inside the filter. -/
def WatchById (row : Option RoomInfo) (queries : List (List PropQuery))
    (dispatch : RoomInfo → Except LobbyErr JoinedRoomRes) :
    Option (Except LobbyErr JoinedRoomRes) :=
  match row with
  | none =>
    some (.error ⟨"WatchById: failed to get room", some (200, "No watchable room found")⟩)
  | some room =>
    match unmarshalProps room.PublicProps with
    | .error _ => some (.error ⟨"WatchById: unmarshalProps", none⟩)
    | .ok props =>
      match filter [room] [props] queries 1 false true with
      | none => none
      | some [] =>
        some (.error ⟨"JoinById: filter result is empty", some (200, "No joinable room found")⟩)
      | some (r :: _) => some (dispatch r)

/-- Character table of the hex encoder (encoding/hex, lowercase). -/
def hexDigits : List Char := "0123456789abcdef".toList

/-- One hex digit character. -/
def hexDigit (n : Nat) : Char := hexDigits.getD (n % 16) '0'

/-- hex.EncodeToString: two lowercase hex characters per byte. -/
def hexEncode (bs : List Nat) : String :=
  String.mk (bs.foldr (fun b acc => hexDigit (b / 16) :: hexDigit b :: acc) [])

/-- Room id length constant of the game repository (lenId). -/
def lenId : Nat := 16

/-- RandomHex: draw n bytes from the random stream and hex-encode them.
The stream stands for math/rand; its draws are reduced to byte range. -/
def RandomHex (n : Nat) (stream : Nat → Nat) : String :=
  hexEncode ((List.range n).map (fun i => stream i % 256))

/-- Random and DB inputs of one run of Repository.newRoomInfo: per
attempt, the random byte stream for the id, the number draw (a
rand.Int31n result, reduced modulo maxNumber in the model), whether the
INSERT succeeded, and whether the context was done when checked. -/
structure RoomEnv where
  idStream : Nat → Nat → Nat
  numRand : Nat → Nat
  insertOk : Nat → Bool
  ctxDone : Nat → Bool

/-- Outcome fields of newRoomInfo that the claims inspect. -/
structure NewRoomOut where
  Id : String
  Number : Nat
deriving DecidableEq, Repr

/-- Failure cases of newRoomInfo. -/
inductive NewRoomErr where
  | ctxDone
  | retryOver
deriving DecidableEq, Repr

/-- Retry loop of Repository.newRoomInfo: on each attempt check the
context, draw a fresh id (and a fresh number in one to maxNumber when
requested), and try the INSERT; give up after the given number of
tries. -/
def newRoomInfoLoop (env : RoomEnv) (withNumber : Bool) (maxNumber : Nat) :
    Nat → Nat → Except NewRoomErr NewRoomOut
  | 0, _ => .error .retryOver
  | k + 1, n =>
    if env.ctxDone n then .error .ctxDone
    else
      let id := RandomHex lenId (env.idStream n)
      let num := if withNumber then env.numRand n % maxNumber + 1 else 0
      if env.insertOk n then .ok ⟨id, num⟩
      else newRoomInfoLoop env withNumber maxNumber k (n + 1)

/-- Repository.newRoomInfo with retryCount tries. -/
def newRoomInfo (env : RoomEnv) (withNumber : Bool) (maxNumber retryCount : Nat) :
    Except NewRoomErr NewRoomOut :=
  newRoomInfoLoop env withNumber maxNumber retryCount 0

/-- In-memory room held by the repository (game Room, restricted to the
identity and key the claims inspect). -/
structure GRoom where
  id : String
  key : String
deriving DecidableEq, Repr

/-- Reply received on the one-shot join channel (JoinedInfo). -/
structure JoinedInfo where
  client : String
  roomId : String
  players : List String
  masterId : String
  deadline : Nat
deriving DecidableEq, Repr

/-- Outcome of awaiting the join reply: a value was received, the
channel was closed, or the five-second deadline (or an outer
cancellation) fired first. -/
inductive ChOutcome where
  | recv (j : JoinedInfo)
  | closed
  | ctxDone
deriving Repr

/-- Fate of the DB transaction opened by CreateRoom. -/
inductive TxFate where
  | noTx
  | rolledBack
  | committed
deriving DecidableEq, Repr

/-- Failure cases of CreateRoom. -/
inductive CreateErr where
  | beginErr
  | roomInfoErr (e : NewRoomErr)
  | newRoomErr
  | chanClosed
  | timeout
  | tokenErr
deriving DecidableEq, Repr

/-- Repository state touched by CreateRoom: the persisted room rows and
the two in-memory indexes. -/
structure RepoState where
  dbRooms : List NewRoomOut
  rooms : List (String × GRoom)
  clients : List ((String × String) × Unit)
deriving Repr

/-- Index the master client under (clientId, roomId), as the nested maps
of the repository do. -/
def clientsInsert (cs : List ((String × String) × Unit)) (cid rid : String) :
    List ((String × String) × Unit) :=
  ((cid, rid), ()) :: cs

/-- Repository.CreateRoom as a transition on the repository state.  The
outcomes of the externally-acting steps are inputs: whether Beginx
succeeded, the newRoomInfo outcome, the NewRoom outcome, the join-reply
channel outcome, and the token issuance outcome.  The returned TxFate
records whether the transaction was committed or rolled back. -/
def CreateRoom (st : RepoState) (beginOk : Bool)
    (riRes : Except NewRoomErr NewRoomOut) (roomRes : Except Unit GRoom)
    (chOut : ChOutcome) (tokenRes : Except Unit String) :
    RepoState × TxFate × Except CreateErr JoinedRoomRes :=
  if !beginOk then (st, .noTx, .error .beginErr)
  else
    match riRes with
    | .error e => (st, .rolledBack, .error (.roomInfoErr e))
    | .ok ri =>
      match roomRes with
      | .error _ => (st, .rolledBack, .error .newRoomErr)
      | .ok room =>
        match chOut with
        | .closed => (st, .rolledBack, .error .chanClosed)
        | .ctxDone => (st, .rolledBack, .error .timeout)
        | .recv joined =>
          match tokenRes with
          | .error _ => (st, .rolledBack, .error .tokenErr)
          | .ok token =>
            (⟨ri :: st.dbRooms,
              (room.id, room) :: st.rooms,
              clientsInsert st.clients joined.client room.id⟩,
             .committed,
             .ok ⟨joined.roomId, joined.players, token, joined.masterId, joined.deadline⟩)

mutual
/-- binary.unmarshalRecursive (lowercase): decode the first value, then
cook it: an Obj keeps its class id and recursively decodes a non-empty
body, a Dict becomes a map of cooked values, a List becomes a list of
cooked values, anything else passes through.  The fuel decreases on
every call of the group; the fuel used at top level is ample. -/
def unmarshalRecursiveF : Nat → List Nat → Except UErr (IVal × Nat)
  | 0, _ => .error .errFuel
  | f + 1, src =>
    match Unmarshal src with
    | .error e => .error e
    | .ok (u, n) =>
      match u with
      | .objv cid body =>
        if body.isEmpty then .ok (.rawObj cid none, n)
        else
          match UnmarshalRecursiveF f body with
          | .error e => .error e
          | .ok b => .ok (.rawObj cid (some b), n)
      | .dictv entries =>
        match dictCookF f entries with
        | .error e => .error e
        | .ok es => .ok (.mapv es, n)
      | .listv elems =>
        match listCookF f elems with
        | .error e => .error e
        | .ok es => .ok (.listr es, n)
      | v => .ok (v, n)

/-- Cook the values of a run of dict entries. -/
def dictCookF : Nat → List (List Nat × List Nat) → Except UErr (List (List Nat × IVal))
  | 0, _ => .error .errFuel
  | _ + 1, [] => .ok []
  | f + 1, (k, v) :: rest =>
    match UnmarshalRecursiveF f v with
    | .error e => .error e
    | .ok u =>
      match dictCookF f rest with
      | .error e => .error e
      | .ok es => .ok ((k, u) :: es)

/-- Cook the elements of a run of raw list elements. -/
def listCookF : Nat → List (List Nat) → Except UErr (List IVal)
  | 0, _ => .error .errFuel
  | _ + 1, [] => .ok []
  | f + 1, v :: rest =>
    match UnmarshalRecursiveF f v with
    | .error e => .error e
    | .ok u =>
      match listCookF f rest with
      | .error e => .error e
      | .ok es => .ok (u :: es)

/-- binary.UnmarshalRecursive: reject an empty input, decode the first
value, and when bytes remain keep decoding, returning the list of all
decoded values; a single value is returned unwrapped. -/
def UnmarshalRecursiveF : Nat → List Nat → Except UErr IVal
  | 0, _ => .error .errFuel
  | f + 1, src =>
    if src.isEmpty then .error .errEmpty
    else
      match unmarshalRecursiveF f src with
      | .error e => .error e
      | .ok (u, n) =>
        if src.length ≤ n then .ok u
        else
          match unmarshalLoopF f (src.drop n) with
          | .error e => .error e
          | .ok vs => .ok (.listr (u :: vs))

/-- Trailing loop of UnmarshalRecursive over the remaining bytes. -/
def unmarshalLoopF : Nat → List Nat → Except UErr (List IVal)
  | 0, _ => .error .errFuel
  | _ + 1, [] => .ok []
  | f + 1, src =>
    match unmarshalRecursiveF f src with
    | .error e => .error e
    | .ok (u, n) =>
      match unmarshalLoopF f (src.drop n) with
      | .error e => .error e
      | .ok vs => .ok (u :: vs)
end

/-- binary.UnmarshalRecursive at an ample fuel: the group consumes one
fuel unit per decoded component, and a component occupies at least one
byte, so twice the length plus two is never exhausted. -/
def UnmarshalRecursive (src : List Nat) : Except UErr IVal :=
  UnmarshalRecursiveF (2 * src.length + 2) src

/-- A value is good when it is built only from primitives, maps, lists
and recursively decoded objects: the raw shapes dictv, listv and objv of
the plain Unmarshal do not occur in it. -/
def goodVal : IVal → Bool
  | .null => true
  | .boolv _ => true
  | .intv _ _ => true
  | .floatv _ _ => true
  | .strv _ => true
  | .boolsv _ => true
  | .numsv _ _ => true
  | .objv _ _ => false
  | .listv _ => false
  | .dictv _ => false
  | .rawObj _ none => true
  | .rawObj _ (some b) => goodVal b
  | .mapv [] => true
  | .mapv ((_, v) :: rest) => goodVal v && goodVal (.mapv rest)
  | .listr [] => true
  | .listr (x :: rest) => goodVal x && goodVal (.listr rest)

/-- Spec-side description of the packed fixed-width elements of a
homogeneous numeric list body: the consecutive chunks of elemSize
bytes.  Stated from the words of the spec for comparison with the
containNum scan of the source. -/
def specPackedElements (es : Nat) : List Nat → List (List Nat)
  | [] => []
  | b :: r => (b :: r).take es :: specPackedElements es (r.drop (es - 1))
termination_by l => l.length
decreasing_by simp [List.length_drop]; omega

/-- Raw-result predicate: the cooked shapes rawObj, mapv and listr are
never produced by the plain Unmarshal. -/
def notCooked : IVal → Bool
  | .rawObj _ _ => false
  | .mapv _ => false
  | .listr _ => false
  | _ => true

section Theorems

/-- Helper: lexicographic comparison of byte strings whose first bytes
differ is decided by the first bytes. -/
theorem bytesCompare_head {a b : Nat} (xs ys : List Nat) (h : a ≠ b) :
    bytesCompare (a :: xs) (b :: ys) = compare a b := by
  unfold bytesCompare
  rcases Nat.lt_or_ge a b with hlt | hge
  · rw [Nat.compare_eq_lt.mpr hlt]
  · rcases Nat.lt_or_ge b a with hgt | hge2
    · rw [Nat.compare_eq_gt.mpr hgt]
    · omega

/-- Helper: a Contain or NotContain query against a homogeneous numeric
list whose element type differs from the query value tag yields the
NotContain polarity. -/
theorem contain_numlist_tag_mismatch (q : PropQuery) (lt et : BinType)
    (rest qd : List Nat) (qt : Nat) (hlt : NumListElementType lt = some et)
    (hval : q.Val = qt :: qd) (hqt : qt ≠ tagByte et) :
    q.contain (tagByte lt :: rest) = some (decide (q.Op = .OpNotContain)) := by
  cases lt <;>
    simp_all [PropQuery.contain, PropQuery.containNum, tagByte, binTypeOfByte,
      NumListElementType]

/-- Claim C1, counterexample: a stored Byte-tagged value compared with an
Int-tagged query value (leading tag bytes 3 and 8) satisfies the
LessThan operator, so a tag mismatch is not a non-match for the ordering
operators. -/
theorem c1_counterexample :
    PropQuery.matchQ ⟨[], .OpLessThan, [8, 0, 0, 0, 5]⟩ [3, 5] = some true
    ∧ (3 : Nat) ≠ 8 := by
  exact ⟨rfl, by decide⟩

/-- Claim C1, amended: for stored and query values whose leading tag
bytes differ, Equal yields false and Not yields true; each ordering
operator evaluates the raw lexicographic byte comparison, so LessThan
and LessThanOrEqual hold exactly when the stored tag byte is smaller
and GreaterThan and GreaterThanOrEqual exactly when it is larger; and a
Contain (resp. NotContain) query whose value tag differs from the
element type of a stored homogeneous numeric list yields false
(resp. true). -/
theorem c1_tag_mismatch (key xs ys : List Nat) (t1 t2 : Nat) (h : t1 ≠ t2) :
    (PropQuery.matchQ ⟨key, .OpEqual, t2 :: ys⟩ (t1 :: xs) = some false)
    ∧ (PropQuery.matchQ ⟨key, .OpNot, t2 :: ys⟩ (t1 :: xs) = some true)
    ∧ (t1 < t2 →
        PropQuery.matchQ ⟨key, .OpLessThan, t2 :: ys⟩ (t1 :: xs) = some true
        ∧ PropQuery.matchQ ⟨key, .OpLessThanOrEqual, t2 :: ys⟩ (t1 :: xs) = some true
        ∧ PropQuery.matchQ ⟨key, .OpGreaterThan, t2 :: ys⟩ (t1 :: xs) = some false
        ∧ PropQuery.matchQ ⟨key, .OpGreaterThanOrEqual, t2 :: ys⟩ (t1 :: xs) = some false)
    ∧ (t2 < t1 →
        PropQuery.matchQ ⟨key, .OpLessThan, t2 :: ys⟩ (t1 :: xs) = some false
        ∧ PropQuery.matchQ ⟨key, .OpLessThanOrEqual, t2 :: ys⟩ (t1 :: xs) = some false
        ∧ PropQuery.matchQ ⟨key, .OpGreaterThan, t2 :: ys⟩ (t1 :: xs) = some true
        ∧ PropQuery.matchQ ⟨key, .OpGreaterThanOrEqual, t2 :: ys⟩ (t1 :: xs) = some true)
    ∧ (∀ (q : PropQuery) (lt et : BinType) (rest qd : List Nat) (qt : Nat),
        NumListElementType lt = some et → q.Val = qt :: qd → qt ≠ tagByte et →
        (q.Op = .OpContain → q.contain (tagByte lt :: rest) = some false)
        ∧ (q.Op = .OpNotContain → q.contain (tagByte lt :: rest) = some true)) := by
  have hcmp := bytesCompare_head (a := t1) (b := t2) xs ys h
  refine ⟨?_, ?_, ?_, ?_, ?_⟩
  · simp [PropQuery.matchQ, hcmp, Nat.compare_eq_eq]; omega
  · simp [PropQuery.matchQ, hcmp, Nat.compare_eq_eq]; omega
  · intro hlt
    simp [PropQuery.matchQ, hcmp, Nat.compare_eq_lt, Nat.compare_eq_gt]
    omega
  · intro hgt
    simp [PropQuery.matchQ, hcmp, Nat.compare_eq_lt, Nat.compare_eq_gt]
    omega
  · intro q lt et rest qd qt hlt hval hqt
    have hc := contain_numlist_tag_mismatch q lt et rest qd qt hlt hval hqt
    constructor
    · intro hop; rw [hc, hop]; rfl
    · intro hop; rw [hc, hop]; rfl

/-- Claim C1, witness: the amended theorem applied at tag bytes 3 and
8. -/
theorem c1_tag_mismatch_witness :
    (3 : Nat) ≠ 8
    ∧ PropQuery.matchQ ⟨[], .OpEqual, 8 :: [0, 0, 0, 5]⟩ (3 :: [5]) = some false :=
  ⟨by decide, (c1_tag_mismatch [] [5] [0, 0, 0, 5] 3 8 (by decide)).1⟩

/-- Claim C10, counterexample: a group whose first query fails returns a
non-match without panicking, even though the group contains a Contain
query whose key is absent from the stored dict. -/
theorem c10_counterexample :
    PropQueriesMatch [⟨[97], .OpEqual, [9]⟩, ⟨[98], .OpContain, [3]⟩] [([97], [4])]
      = some false
    ∧ List.lookup ([98] : List Nat) ([([97], [4])] : Dict) = none := by
  exact ⟨rfl, rfl⟩

/-- Claim C10, amended: when every query preceding a Contain or
NotContain query in the group matches and that query names a key absent
from the stored dict, PropQueries.match panics (none): the nil value
reaches contain, which indexes its first byte without a length guard;
and containNum likewise panics on an empty query value. -/
theorem c10_missing_key_panic :
    (∀ (pre post : List PropQuery) (q : PropQuery) (props : Dict),
      (∀ p ∈ pre, p.matchQ (dictGet props p.Key) = some true) →
      (q.Op = .OpContain ∨ q.Op = .OpNotContain) →
      List.lookup q.Key props = none →
      PropQueriesMatch (pre ++ q :: post) props = none)
    ∧ (∀ (q : PropQuery) (val : List Nat) (et : BinType),
        q.Val = [] → q.containNum val et = none) := by
  constructor
  · intro pre post q props hpre hop hmiss
    induction pre with
    | nil =>
      have hg : dictGet props q.Key = [] := by simp [dictGet, hmiss]
      rcases hop with h | h <;>
        simp [PropQueriesMatch, hg, PropQuery.matchQ, h, PropQuery.contain]
    | cons p rest ih =>
      have hp : p.matchQ (dictGet props p.Key) = some true := hpre p (by simp)
      have hrest : ∀ p2 ∈ rest, p2.matchQ (dictGet props p2.Key) = some true := by
        intro p2 hp2; exact hpre p2 (by simp [hp2])
      simp [PropQueriesMatch, hp, ih hrest]
  · intro q val et hval
    simp [PropQuery.containNum, hval]

/-- Claim C10, witness: the amended theorem applied to a one-query group
with an absent key. -/
theorem c10_missing_key_panic_witness :
    List.lookup ([98] : List Nat) ([] : Dict) = none
    ∧ PropQueriesMatch [⟨[98], .OpContain, [3]⟩] [] = none :=
  ⟨rfl, c10_missing_key_panic.1 [] [] ⟨[98], .OpContain, [3]⟩ [] (by simp)
    (Or.inl rfl) rfl⟩

/-- Claim C5: the lobby maps remote gRPC codes to HTTP statuses: for
Create, InvalidArgument to 400 and ResourceExhausted to 503; for join,
NotFound and FailedPrecondition to 200 No joinable room found,
ResourceExhausted to 200 Room full, AlreadyExists to 409 and
InvalidArgument to 400; all other codes, and errors without a remote
status, carry no status tag. -/
theorem c5_status_mapping (c : GrpcCode) :
    resStatus (createResult (.error (some .InvalidArgument))) = some (400, "Invalid argument")
    ∧ resStatus (createResult (.error (some .ResourceExhausted)))
        = some (503, "Reached to the max room number")
    ∧ resStatus (joinResult (.error (some .NotFound))) = some (200, "No joinable room found")
    ∧ resStatus (joinResult (.error (some .FailedPrecondition)))
        = some (200, "No joinable room found")
    ∧ resStatus (joinResult (.error (some .ResourceExhausted))) = some (200, "Room full")
    ∧ resStatus (joinResult (.error (some .AlreadyExists))) = some (409, "Already exists")
    ∧ resStatus (joinResult (.error (some .InvalidArgument))) = some (400, "Invalid argument")
    ∧ (c ≠ .InvalidArgument → c ≠ .ResourceExhausted →
        resStatus (createResult (.error (some c))) = none)
    ∧ (c ≠ .NotFound → c ≠ .FailedPrecondition → c ≠ .ResourceExhausted →
        c ≠ .AlreadyExists → c ≠ .InvalidArgument →
        resStatus (joinResult (.error (some c))) = none)
    ∧ resStatus (createResult (.error none)) = none
    ∧ resStatus (joinResult (.error none)) = none := by
  cases c <;> refine ⟨rfl, rfl, rfl, rfl, rfl, rfl, rfl, ?_, ?_, rfl, rfl⟩ <;>
    intros <;> first
    | rfl
    | simp_all

/-- Claim C5, witness: the mapping theorem applied at the Internal code,
which is unclassified for both Create and join. -/
theorem c5_status_mapping_witness :
    GrpcCode.Internal ≠ GrpcCode.InvalidArgument
    ∧ resStatus (createResult (.error (some .Internal))) = none :=
  ⟨by decide,
    (c5_status_mapping .Internal).2.2.2.2.2.2.2.1 (by decide) (by decide)⟩

/-- Helper: the hex encoder produces two characters per byte. -/
theorem hexEncode_length (bs : List Nat) : (hexEncode bs).length = 2 * bs.length := by
  have h : ∀ l : List Nat,
      (l.foldr (fun b acc => hexDigit (b / 16) :: hexDigit b :: acc) []).length
        = 2 * l.length := by
    intro l
    induction l with
    | nil => rfl
    | cons b r ih => simp [List.foldr, ih]; omega
  simpa [hexEncode, String.length] using h bs

/-- Helper: every hex digit character is in the lowercase hex table. -/
theorem hexDigit_mem (n : Nat) : hexDigit n ∈ hexDigits := by
  have h : n % 16 < hexDigits.length := by
    have hlen : hexDigits.length = 16 := rfl
    have h2 : n % 16 < 16 := Nat.mod_lt n (by norm_num)
    rw [hlen]
    exact h2
  rw [hexDigit, List.getD_eq_getElem hexDigits '0' h]
  exact List.getElem_mem h

/-- Helper: every character of a hex encoding is a lowercase hex
digit. -/
theorem hexEncode_chars (bs : List Nat) : ∀ ch ∈ (hexEncode bs).data, ch ∈ hexDigits := by
  induction bs with
  | nil => intro ch h; simp [hexEncode] at h
  | cons b r ih =>
    intro ch h
    have hx : (hexEncode (b :: r)).data
        = hexDigit (b / 16) :: hexDigit b :: (hexEncode r).data := rfl
    rw [hx] at h
    simp only [List.mem_cons] at h
    rcases h with h | h | h
    · exact h ▸ hexDigit_mem _
    · exact h ▸ hexDigit_mem _
    · exact ih ch h

/-- Helper: the newRoomInfo retry loop succeeds at the first attempt
whose INSERT succeeds, with the id and number drawn fresh on that
attempt. -/
theorem newRoomInfoLoop_success (env : RoomEnv) (withNumber : Bool) (maxNumber : Nat) :
    ∀ (k tries n : Nat), k < tries →
    (∀ j, n ≤ j → j < n + k → env.ctxDone j = false ∧ env.insertOk j = false) →
    env.ctxDone (n + k) = false → env.insertOk (n + k) = true →
    newRoomInfoLoop env withNumber maxNumber tries n =
      .ok ⟨RandomHex lenId (env.idStream (n + k)),
           if withNumber then env.numRand (n + k) % maxNumber + 1 else 0⟩ := by
  intro k
  induction k with
  | zero =>
    intro tries n hk hpre hdone hins
    cases tries with
    | zero => omega
    | succ t =>
      simp only [Nat.add_zero] at hdone hins
      simp [newRoomInfoLoop, hdone, hins]
  | succ k ih =>
    intro tries n hk hpre hdone hins
    cases tries with
    | zero => omega
    | succ t =>
      have h0 : env.ctxDone n = false ∧ env.insertOk n = false := by
        exact hpre n (le_refl n) (by omega)
      have hrec := ih t (n + 1) (by omega)
        (fun j hj1 hj2 => hpre j (by omega) (by omega))
        (by have : n + 1 + k = n + (k + 1) := by omega
            rw [this]; exact hdone)
        (by have : n + 1 + k = n + (k + 1) := by omega
            rw [this]; exact hins)
      have : n + 1 + k = n + (k + 1) := by omega
      rw [this] at hrec
      simp [newRoomInfoLoop, h0.1, h0.2, hrec]

/-- Helper: the newRoomInfo retry loop fails after exhausting all
tries when every attempt fails. -/
theorem newRoomInfoLoop_exhaust (env : RoomEnv) (withNumber : Bool) (maxNumber : Nat) :
    ∀ (tries n : Nat),
    (∀ j, n ≤ j → j < n + tries → env.ctxDone j = false ∧ env.insertOk j = false) →
    newRoomInfoLoop env withNumber maxNumber tries n = .error .retryOver := by
  intro tries
  induction tries with
  | zero => intro n _; rfl
  | succ t ih =>
    intro n hpre
    have h0 := hpre n (le_refl n) (by omega)
    have hrec := ih (n + 1) (fun j hj1 hj2 => hpre j (by omega) (by omega))
    simp [newRoomInfoLoop, h0.1, h0.2, hrec]

/-- Claim C7, counterexample: the id generated from lenId random bytes
has 32 characters, not 16, because hex encoding doubles the byte
count. -/
theorem c7_counterexample :
    (RandomHex lenId (fun _ => 0)).length = 32
    ∧ (RandomHex lenId (fun _ => 0)).length ≠ 16 := by
  constructor
  · rw [RandomHex, hexEncode_length]; simp [lenId]
  · rw [RandomHex, hexEncode_length]; simp [lenId]

/-- Claim C7, amended: the id generated by newRoomInfo is the hex
encoding of lenId fresh random bytes, a string of exactly 32 lowercase
hexadecimal characters; when a number is requested each generated number
lies in one to MaxRoomNum; the id and number are drawn afresh on the
attempt that succeeds, after up to RetryCount attempts; and when all
RetryCount attempts fail the call fails. -/
theorem c7_newRoomInfo (env : RoomEnv) (withNumber : Bool)
    (maxNumber retryCount k : Nat) (hmax : 0 < maxNumber) (hk : k < retryCount)
    (hpre : ∀ j, j < k → env.ctxDone j = false ∧ env.insertOk j = false)
    (hdone : env.ctxDone k = false) (hins : env.insertOk k = true) :
    (newRoomInfo env withNumber maxNumber retryCount =
      .ok ⟨RandomHex lenId (env.idStream k),
           if withNumber then env.numRand k % maxNumber + 1 else 0⟩)
    ∧ (RandomHex lenId (env.idStream k)).length = 32
    ∧ (∀ ch ∈ (RandomHex lenId (env.idStream k)).data, ch ∈ hexDigits)
    ∧ (withNumber = true →
        1 ≤ env.numRand k % maxNumber + 1 ∧ env.numRand k % maxNumber + 1 ≤ maxNumber)
    ∧ (∀ env2 : RoomEnv,
        (∀ j, j < retryCount → env2.ctxDone j = false ∧ env2.insertOk j = false) →
        newRoomInfo env2 withNumber maxNumber retryCount = .error .retryOver) := by
  refine ⟨?_, ?_, ?_, ?_, ?_⟩
  · have := newRoomInfoLoop_success env withNumber maxNumber k retryCount 0 hk
      (fun j hj1 hj2 => hpre j (by omega)) (by simpa using hdone) (by simpa using hins)
    simpa [newRoomInfo] using this
  · rw [RandomHex, hexEncode_length]; simp [lenId]
  · intro ch h; exact hexEncode_chars _ ch h
  · intro _
    have := Nat.mod_lt (env.numRand k) hmax
    omega
  · intro env2 hall
    exact newRoomInfoLoop_exhaust env2 withNumber maxNumber retryCount 0
      (fun j hj1 hj2 => hall j (by omega))

/-- Claim C7, witness: the amended theorem applied to a run whose second
attempt succeeds. -/
theorem c7_newRoomInfo_witness :
    (1 : Nat) < 3
    ∧ newRoomInfo ⟨fun _ _ => 171, fun _ => 7, fun n => n == 1, fun _ => false⟩
        true 5 3 =
      .ok ⟨RandomHex lenId (fun _ => 171), if true then (7 : Nat) % 5 + 1 else 0⟩ :=
  ⟨by decide,
    (c7_newRoomInfo ⟨fun _ _ => 171, fun _ => 7, fun n => n == 1, fun _ => false⟩
      true 5 3 1 (by decide) (by decide) (by decide) rfl rfl).1⟩

/-- Claim C8: CreateRoom is atomic: every failure (begin error excluded,
which opens no transaction) rolls the transaction back and leaves the
repository state unchanged, and only the success path commits, indexes
the room and the master client, and returns the joined result with the
issued token. -/
theorem c8_createRoom_atomic (st : RepoState) (beginOk : Bool)
    (riRes : Except NewRoomErr NewRoomOut) (roomRes : Except Unit GRoom)
    (chOut : ChOutcome) (tokenRes : Except Unit String) :
    (∀ stOut tx err, CreateRoom st beginOk riRes roomRes chOut tokenRes
        = (stOut, tx, .error err) →
      stOut.dbRooms = st.dbRooms ∧ stOut.rooms = st.rooms
      ∧ stOut.clients = st.clients ∧ tx ≠ .committed)
    ∧ (beginOk = false →
        CreateRoom st beginOk riRes roomRes chOut tokenRes = (st, .noTx, .error .beginErr))
    ∧ (∀ e, beginOk = true → riRes = .error e →
        CreateRoom st beginOk riRes roomRes chOut tokenRes
          = (st, .rolledBack, .error (.roomInfoErr e)))
    ∧ (∀ ri, beginOk = true → riRes = .ok ri → roomRes = .error () →
        CreateRoom st beginOk riRes roomRes chOut tokenRes
          = (st, .rolledBack, .error .newRoomErr))
    ∧ (∀ ri room, beginOk = true → riRes = .ok ri → roomRes = .ok room →
        chOut = .closed →
        CreateRoom st beginOk riRes roomRes chOut tokenRes
          = (st, .rolledBack, .error .chanClosed))
    ∧ (∀ ri room, beginOk = true → riRes = .ok ri → roomRes = .ok room →
        chOut = .ctxDone →
        CreateRoom st beginOk riRes roomRes chOut tokenRes
          = (st, .rolledBack, .error .timeout))
    ∧ (∀ ri room joined, beginOk = true → riRes = .ok ri → roomRes = .ok room →
        chOut = .recv joined → tokenRes = .error () →
        CreateRoom st beginOk riRes roomRes chOut tokenRes
          = (st, .rolledBack, .error .tokenErr))
    ∧ (∀ ri room joined token, beginOk = true → riRes = .ok ri → roomRes = .ok room →
        chOut = .recv joined → tokenRes = .ok token →
        CreateRoom st beginOk riRes roomRes chOut tokenRes
          = (⟨ri :: st.dbRooms, (room.id, room) :: st.rooms,
              clientsInsert st.clients joined.client room.id⟩,
             .committed,
             .ok ⟨joined.roomId, joined.players, token, joined.masterId,
                  joined.deadline⟩)) := by
  refine ⟨?_, ?_, ?_, ?_, ?_, ?_, ?_, ?_⟩
  · intro stOut tx err h
    cases beginOk <;> rcases riRes with e | ri <;> rcases roomRes with u | room <;>
      cases chOut <;> rcases tokenRes with u2 | tok <;>
      simp [CreateRoom] at h <;>
      obtain ⟨h1, h2, h3⟩ := h <;> subst h1 <;> subst h2 <;>
      exact ⟨rfl, rfl, rfl, by simp⟩
  · intro h; subst h; rfl
  · intro e hb hr; subst hb; subst hr; rfl
  · intro ri hb hr hroom; subst hb; subst hr; subst hroom; rfl
  · intro ri room hb hr hroom hch; subst hb; subst hr; subst hroom; subst hch; rfl
  · intro ri room hb hr hroom hch; subst hb; subst hr; subst hroom; subst hch; rfl
  · intro ri room joined hb hr hroom hch htok
    subst hb; subst hr; subst hroom; subst hch; subst htok; rfl
  · intro ri room joined token hb hr hroom hch htok
    subst hb; subst hr; subst hroom; subst hch; subst htok; rfl

/-- Claim C8, witness: the atomicity theorem applied to a concrete
successful run. -/
theorem c8_createRoom_atomic_witness :
    (Except.ok ⟨"r1", "k1"⟩ : Except Unit GRoom) = .ok ⟨"r1", "k1"⟩
    ∧ CreateRoom ⟨[], [], []⟩ true (.ok ⟨"abcd", 2⟩) (.ok ⟨"r1", "k1"⟩)
        (.recv ⟨"u1", "r1", ["u1"], "u1", 10⟩) (.ok "tok")
      = (⟨[⟨"abcd", 2⟩], [("r1", ⟨"r1", "k1"⟩)], clientsInsert [] "u1" "r1"⟩,
         .committed, .ok ⟨"r1", ["u1"], "tok", "u1", 10⟩) :=
  ⟨rfl,
    (c8_createRoom_atomic ⟨[], [], []⟩ true (.ok ⟨"abcd", 2⟩) (.ok ⟨"r1", "k1"⟩)
        (.recv ⟨"u1", "r1", ["u1"], "u1", 10⟩) (.ok "tok")).2.2.2.2.2.2.2
      ⟨"abcd", 2⟩ ⟨"r1", "k1"⟩ ⟨"u1", "r1", ["u1"], "u1", 10⟩ "tok"
      rfl rfl rfl rfl rfl⟩

/-- Helper: behaviour of the JoinAtRandom candidate loop from any start
index: exhausting all candidates on absorbed failures yields the
semantic empty result, and at the first attempt not covered by absorbed
failures the loop returns the timeout error when the deadline has fired,
the join result on success, and the error itself when it is classified
as 400. -/
theorem joinAtRandomLoop_props (ctxDone : Nat → Bool)
    (att : Nat → Except LobbyErr JoinedRoomRes) :
    ∀ (l : List RoomInfo) (i0 : Nat),
    ((∀ i, i < l.length →
        ctxDone (i0 + i) = false ∧ ∃ e, att (i0 + i) = .error e ∧ is400 e = false) →
      joinAtRandomLoop ctxDone att l i0
        = .error ⟨"JoinAtRandom: Failed to join all rooms",
                  some (200, "No joinable room found")⟩)
    ∧ (∀ k, k < l.length →
        (∀ j, j < k →
          ctxDone (i0 + j) = false ∧ ∃ e, att (i0 + j) = .error e ∧ is400 e = false) →
        (ctxDone (i0 + k) = true →
          joinAtRandomLoop ctxDone att l i0 = .error ⟨"JoinAtRandom: timeout", none⟩)
        ∧ (∀ res, ctxDone (i0 + k) = false → att (i0 + k) = .ok res →
            joinAtRandomLoop ctxDone att l i0 = .ok res)
        ∧ (∀ e, ctxDone (i0 + k) = false → att (i0 + k) = .error e → is400 e = true →
            joinAtRandomLoop ctxDone att l i0 = .error e)) := by
  intro l
  induction l with
  | nil =>
    intro i0
    constructor
    · intro _; rfl
    · intro k hk; simp at hk
  | cons r rest ih =>
    intro i0
    constructor
    · intro hall
      have h0 := hall 0 (by simp)
      simp only [Nat.add_zero] at h0
      obtain ⟨hd, e0, he0, h4000⟩ := h0
      have hrec := (ih (i0 + 1)).1 (by
        intro i hi
        have := hall (i + 1) (by simp; omega)
        have harith : i0 + (i + 1) = i0 + 1 + i := by omega
        rw [harith] at this
        exact this)
      simp [joinAtRandomLoop, hd, he0, h4000, hrec]
    · intro k hk hpre
      cases k with
      | zero =>
        refine ⟨?_, ?_, ?_⟩
        · intro hd; simp only [Nat.add_zero] at hd; simp [joinAtRandomLoop, hd]
        · intro res hd hok
          simp only [Nat.add_zero] at hd hok
          simp [joinAtRandomLoop, hd, hok]
        · intro e hd herr h400
          simp only [Nat.add_zero] at hd herr
          simp [joinAtRandomLoop, hd, herr, h400]
      | succ k2 =>
        have h0 := hpre 0 (by omega)
        simp only [Nat.add_zero] at h0
        obtain ⟨hd, e0, he0, h4000⟩ := h0
        have hrec := (ih (i0 + 1)).2 k2 (by simp at hk; omega) (by
          intro j hj
          have := hpre (j + 1) (by omega)
          have harith : i0 + (j + 1) = i0 + 1 + j := by omega
          rw [harith] at this
          exact this)
        have harith : i0 + 1 + k2 = i0 + (k2 + 1) := by omega
        rw [harith] at hrec
        refine ⟨?_, ?_, ?_⟩
        · intro hdk
          simp [joinAtRandomLoop, hd, he0, h4000, hrec.1 hdk]
        · intro res hdk hok
          simp [joinAtRandomLoop, hd, he0, h4000, hrec.2.1 res hdk hok]
        · intro e hdk herr h400
          simp [joinAtRandomLoop, hd, he0, h4000, hrec.2.2 e hdk herr h400]

/-- Claim C3: JoinAtRandom tries the filtered, shuffled candidates one at
a time; a join failure classified as 400 is returned immediately, any
other per-room failure is absorbed and the next candidate tried, a fired
deadline between attempts yields the timeout error, and exhausting all
candidates yields status 200 No joinable room found. -/
theorem c3_joinAtRandom (rooms : List RoomInfo) (props : List Dict)
    (queries : List (List PropQuery)) (shuffle : List RoomInfo → List RoomInfo)
    (ctxDone : Nat → Bool) (att : Nat → Except LobbyErr JoinedRoomRes)
    (cand : List RoomInfo)
    (hfilt : filter rooms props queries 1000 true false = some cand) :
    (JoinAtRandom rooms props queries shuffle ctxDone att
      = some (joinAtRandomLoop ctxDone att (shuffle cand) 0))
    ∧ ((∀ i, i < (shuffle cand).length →
          ctxDone i = false ∧ ∃ e, att i = .error e ∧ is400 e = false) →
        joinAtRandomLoop ctxDone att (shuffle cand) 0
          = .error ⟨"JoinAtRandom: Failed to join all rooms",
                    some (200, "No joinable room found")⟩)
    ∧ (∀ k, k < (shuffle cand).length →
        (∀ j, j < k →
          ctxDone j = false ∧ ∃ e, att j = .error e ∧ is400 e = false) →
        (ctxDone k = true →
          joinAtRandomLoop ctxDone att (shuffle cand) 0
            = .error ⟨"JoinAtRandom: timeout", none⟩)
        ∧ (∀ res, ctxDone k = false → att k = .ok res →
            joinAtRandomLoop ctxDone att (shuffle cand) 0 = .ok res)
        ∧ (∀ e, ctxDone k = false → att k = .error e → is400 e = true →
            joinAtRandomLoop ctxDone att (shuffle cand) 0 = .error e)) := by
  have hp := joinAtRandomLoop_props ctxDone att (shuffle cand) 0
  refine ⟨?_, ?_, ?_⟩
  · simp [JoinAtRandom, hfilt]
  · intro hall
    exact hp.1 (by intro i hi; simpa using hall i hi)
  · intro k hk hpre
    have := hp.2 k hk (by intro j hj; simpa using hpre j hj)
    simpa using this

/-- Claim C3, witness: the theorem applied to one candidate room whose
single attempt fails with an absorbable error, exhausting the list. -/
theorem c3_joinAtRandom_witness :
    filter [⟨"a", 1, true, true, true, 0, 0, []⟩] [[]] [] 7 true false
      = some [⟨"a", 1, true, true, true, 0, 0, []⟩]
    ∧ JoinAtRandom [⟨"a", 1, true, true, true, 0, 0, []⟩] [[]] [] id
        (fun _ => false) (fun _ => .error ⟨"boom", some (409, "Already exists")⟩)
      = some (joinAtRandomLoop (fun _ => false)
          (fun _ => .error ⟨"boom", some (409, "Already exists")⟩)
          (id [⟨"a", 1, true, true, true, 0, 0, []⟩]) 0) :=
  ⟨rfl,
    (c3_joinAtRandom [⟨"a", 1, true, true, true, 0, 0, []⟩] [[]] [] id
      (fun _ => false) (fun _ => .error ⟨"boom", some (409, "Already exists")⟩)
      [⟨"a", 1, true, true, true, 0, 0, []⟩] rfl).1⟩

/-- Claim C6, failing input: WatchById on a present, watchable room whose
props do not match the query returns HTTP 200 with the body No joinable
room found, not the No watchable room found body the claim states (the
source reuses the JoinById message in this branch). -/
theorem c6_watchById_filter_mismatch_body :
    WatchById (some ⟨"room1", 1, true, true, true, 0, 0, [17, 1, 1, 97, 3, 5]⟩)
        [[⟨[97], .OpEqual, [3, 6]⟩]] (fun _ => .error ⟨"unused", none⟩)
      = some (.error ⟨"JoinById: filter result is empty",
                      some (200, "No joinable room found")⟩)
    ∧ "No joinable room found" ≠ "No watchable room found" := by
  exact ⟨rfl, by decide⟩

/-- Helper: a successfully decoded tag byte is the tag byte of the
decoded type. -/
theorem binTypeOfByte_eq_tagByte (t : Nat) (bt : BinType)
    (h : binTypeOfByte t = some bt) : t = tagByte bt := by
  unfold binTypeOfByte at h
  split at h
  all_goals first
  | (injection h with h2; subst h2; rfl)
  | exact Option.noConfusion h

/-- Helper: the element width of a homogeneous numeric list type is
positive. -/
theorem numListElementSize_pos (lt et : BinType)
    (h : NumListElementType lt = some et) : 0 < NumTypeDataSize et := by
  cases lt <;> simp only [NumListElementType, Option.some.injEq, reduceCtorEq] at h <;>
    subst h <;> decide

/-- Helper: on a numeric-list tag, contain dispatches to containNum with
the element type of the list. -/
theorem contain_numlist (q : PropQuery) (lt et : BinType) (rest : List Nat)
    (hlt : NumListElementType lt = some et) :
    q.contain (tagByte lt :: rest) = q.containNum (tagByte lt :: rest) et := by
  cases lt <;> simp_all [PropQuery.contain, tagByte, binTypeOfByte, NumListElementType]

/-- Helper: on a body whose length is a multiple of the element width,
the containNum scan agrees with membership among the packed elements
described by the spec. -/
theorem scanChunks_eq (es : Nat) (hes : 0 < es) (qData : List Nat) :
    ∀ (m : Nat) (data : List Nat), data.length = m * es →
    scanChunks es qData data = some ((specPackedElements es data).contains qData) := by
  intro m
  induction m with
  | zero =>
    intro data hlen
    have : data = [] := List.eq_nil_of_length_eq_zero (by omega)
    subst this
    simp [scanChunks, specPackedElements]
  | succ m2 ih =>
    intro data hlen
    rcases data with _ | ⟨b, r⟩
    · simp at hlen; omega
    · have hr : r.length = (m2 + 1) * es - 1 := by simp at hlen; omega
      have hge : ¬ (r.length + 1 < es) := by
        have : es ≤ (m2 + 1) * es := Nat.le_mul_of_pos_left es (by omega)
        omega
      have hdrop : (r.drop (es - 1)).length = m2 * es := by
        simp [List.length_drop]
        have : es ≤ (m2 + 1) * es := Nat.le_mul_of_pos_left es (by omega)
        calc r.length - (es - 1) = (m2 + 1) * es - 1 - (es - 1) := by omega
        _ = m2 * es := by
            have h2 : (m2 + 1) * es = m2 * es + es := by ring
            omega
      have hrec := ih (r.drop (es - 1)) hdrop
      rw [scanChunks, specPackedElements]
      by_cases hq : (b :: r).take es = qData
      · simp [hge, hq]
      · simp [hge, hq, hrec]
        intro h2
        exact absurd h2.symm hq

/-- Claim C4: for a Contain or NotContain query, a stored List value
yields Contain exactly when some element byte string (tag included)
equals the query value and NotContain otherwise; a stored homogeneous
numeric list whose element type equals the query value tag yields
Contain exactly when the query payload occurs as one packed fixed-width
element; and a stored Null value yields Contain false and NotContain
true. -/
theorem c4_contain (q : PropQuery) :
    (∀ (val : List Nat) (elems : List (List Nat)) (n : Nat),
      UnmarshalAs val [.TList] = .ok (.listv elems, n) →
      (q.Op = .OpContain → q.contain val = some (elems.contains q.Val))
      ∧ (q.Op = .OpNotContain → q.contain val = some (!(elems.contains q.Val))))
    ∧ (∀ (lt et : BinType) (hi lo cnt : Nat) (data qd : List Nat),
      NumListElementType lt = some et →
      data.length = cnt * NumTypeDataSize et →
      q.Val = tagByte et :: qd →
      (q.Op = .OpContain →
        q.contain (tagByte lt :: hi :: lo :: data)
          = some ((specPackedElements (NumTypeDataSize et) data).contains qd))
      ∧ (q.Op = .OpNotContain →
        q.contain (tagByte lt :: hi :: lo :: data)
          = some (!((specPackedElements (NumTypeDataSize et) data).contains qd))))
    ∧ (∀ rest : List Nat,
      (q.Op = .OpContain → q.contain (tagByte .TNull :: rest) = some false)
      ∧ (q.Op = .OpNotContain → q.contain (tagByte .TNull :: rest) = some true)) := by
  refine ⟨?_, ?_, ?_⟩
  · intro val elems n hAs
    rcases val with _ | ⟨t, tail⟩
    · exact absurd hAs (by simp [UnmarshalAs])
    · have hbt : binTypeOfByte t = some .TList := by
        rcases h2 : binTypeOfByte t with _ | bt
        · simp [UnmarshalAs, h2] at hAs
        · have hb : bt = .TList := by
            by_contra hne
            simp [UnmarshalAs, h2, hne] at hAs
          subst hb; rfl
      have ht : t = 16 := binTypeOfByte_eq_tagByte t .TList hbt
      subst ht
      constructor <;> intro hop <;>
        by_cases hm : q.Val ∈ elems <;>
        simp [PropQuery.contain, tagByte, hAs, hop, List.contains, List.elem_eq_mem, hm]
  · intro lt et hi lo cnt data qd hlt hdata hval
    have hes := numListElementSize_pos lt et hlt
    have hchunk := scanChunks_eq (NumTypeDataSize et) hes qd cnt data hdata
    have hcn : q.containNum (tagByte lt :: hi :: lo :: data) et
        = match scanChunks (NumTypeDataSize et) qd data with
          | none => none
          | some true => some (decide (q.Op = .OpContain))
          | some false => some (decide (q.Op = .OpNotContain)) := by
      simp [PropQuery.containNum, hval]
    rw [contain_numlist q lt et _ hlt]
    constructor <;> intro hop <;>
      cases hc : (specPackedElements (NumTypeDataSize et) data).contains qd <;>
      rw [hcn, hchunk, hc] <;> simp [hop]
  · intro rest
    constructor <;> intro hop <;> simp [PropQuery.contain, tagByte, hop]

/-- Claim C4, witness: the theorem applied to a concrete one-element
stored List containing the query value. -/
theorem c4_contain_witness :
    UnmarshalAs [16, 0, 1, 0, 2, 3, 5] [.TList] = .ok (.listv [[3, 5]], 7)
    ∧ PropQuery.contain ⟨[], .OpContain, [3, 5]⟩ [16, 0, 1, 0, 2, 3, 5]
        = some (([[3, 5]] : List (List Nat)).contains [3, 5]) :=
  ⟨rfl,
    ((c4_contain ⟨[], .OpContain, [3, 5]⟩).1 [16, 0, 1, 0, 2, 3, 5] [[3, 5]] 7 rfl).1 rfl⟩

/-- Helper: the plain Unmarshal never produces a cooked shape. -/
theorem unmarshalCore_notCooked (f : Nat) (src : List Nat) (v : IVal) (n : Nat)
    (h : unmarshalCore f src = .ok (v, n)) : notCooked v = true := by
  unfold unmarshalCore at h
  rcases src with _ | ⟨t, rest⟩
  · simp at h
  · rcases hbt : binTypeOfByte t with _ | bt
    · simp [hbt] at h
    · simp only [hbt] at h
      cases bt <;> (repeat' split at h) <;>
        simp only [Except.ok.injEq, Prod.mk.injEq, reduceCtorEq] at h <;>
        obtain ⟨h1, h2⟩ := h <;> subst h1 <;> rfl

/-- Helper: a listr of good values is good. -/
theorem goodVal_listr (xs : List IVal) (h : ∀ x ∈ xs, goodVal x = true) :
    goodVal (.listr xs) = true := by
  induction xs with
  | nil => simp [goodVal]
  | cons a r ih =>
    have ha : goodVal a = true := h a (by simp)
    have hr : goodVal (.listr r) = true := ih (fun x hx => h x (by simp [hx]))
    rw [goodVal]
    simp [ha, hr]

/-- Helper: a mapv of good values is good. -/
theorem goodVal_mapv (es : List (List Nat × IVal)) (h : ∀ e ∈ es, goodVal e.2 = true) :
    goodVal (.mapv es) = true := by
  induction es with
  | nil => simp [goodVal]
  | cons a r ih =>
    have ha : goodVal a.2 = true := h a (by simp)
    have hr : goodVal (.mapv r) = true := ih (fun x hx => h x (by simp [hx]))
    rcases a with ⟨k, va⟩
    rw [goodVal]
    simp_all

/-- Helper: every success of the cooking functions yields good values:
the raw shapes of the plain Unmarshal never escape UnmarshalRecursive. -/
theorem cook_good : ∀ f : Nat,
    (∀ src v n, unmarshalRecursiveF f src = .ok (v, n) → goodVal v = true)
    ∧ (∀ entries es, dictCookF f entries = .ok es → ∀ e ∈ es, goodVal e.2 = true)
    ∧ (∀ elems es, listCookF f elems = .ok es → ∀ x ∈ es, goodVal x = true)
    ∧ (∀ src v, UnmarshalRecursiveF f src = .ok v → goodVal v = true)
    ∧ (∀ src vs, unmarshalLoopF f src = .ok vs → ∀ x ∈ vs, goodVal x = true) := by
  intro f
  induction f with
  | zero =>
    refine ⟨?_, ?_, ?_, ?_, ?_⟩
    · intro src v n h; exact absurd h (by simp [unmarshalRecursiveF])
    · intro entries es h; exact absurd h (by simp [dictCookF])
    · intro elems es h; exact absurd h (by simp [listCookF])
    · intro src v h; exact absurd h (by simp [UnmarshalRecursiveF])
    · intro src vs h; exact absurd h (by simp [unmarshalLoopF])
  | succ f ih =>
    obtain ⟨ih1, ih2, ih3, ih4, ih5⟩ := ih
    refine ⟨?_, ?_, ?_, ?_, ?_⟩
    · intro src v n h
      rw [unmarshalRecursiveF] at h
      rcases hu : Unmarshal src with e | ⟨u, m⟩
      · simp [hu] at h
      · simp only [hu] at h
        have hshape := unmarshalCore_notCooked (src.length + 1) src u m hu
        cases u with
        | null => simp at h; obtain ⟨h1, h2⟩ := h; subst h1; simp [goodVal]
        | boolv b => simp at h; obtain ⟨h1, h2⟩ := h; subst h1; simp [goodVal]
        | intv t2 v2 => simp at h; obtain ⟨h1, h2⟩ := h; subst h1; simp [goodVal]
        | floatv t2 v2 => simp at h; obtain ⟨h1, h2⟩ := h; subst h1; simp [goodVal]
        | strv s => simp at h; obtain ⟨h1, h2⟩ := h; subst h1; simp [goodVal]
        | boolsv bs => simp at h; obtain ⟨h1, h2⟩ := h; subst h1; simp [goodVal]
        | numsv t2 p => simp at h; obtain ⟨h1, h2⟩ := h; subst h1; simp [goodVal]
        | rawObj cid b => simp [notCooked] at hshape
        | mapv es2 => simp [notCooked] at hshape
        | listr xs => simp [notCooked] at hshape
        | objv cid body =>
          by_cases hb : body.isEmpty
          · simp [hb] at h
            obtain ⟨h1, h2⟩ := h
            subst h1
            simp [goodVal]
          · rcases hrec : UnmarshalRecursiveF f body with e | bv
            · simp [hb, hrec] at h
            · simp [hb, hrec] at h
              obtain ⟨h1, h2⟩ := h
              subst h1
              rw [goodVal]
              exact ih4 body bv hrec
        | listv elems =>
          rcases hl : listCookF f elems with e | es2
          · simp [hl] at h
          · simp [hl] at h
            obtain ⟨h1, h2⟩ := h
            subst h1
            exact goodVal_listr es2 (ih3 elems es2 hl)
        | dictv entries =>
          rcases hd : dictCookF f entries with e | es2
          · simp [hd] at h
          · simp [hd] at h
            obtain ⟨h1, h2⟩ := h
            subst h1
            exact goodVal_mapv es2 (ih2 entries es2 hd)
    · intro entries es h
      rcases entries with _ | ⟨⟨k, vb⟩, rest⟩
      · simp [dictCookF] at h
        subst h
        intro e he
        simp at he
      · rw [dictCookF] at h
        rcases hu : UnmarshalRecursiveF f vb with e | uv
        · simp [hu] at h
        · rcases hr : dictCookF f rest with e | es2
          · simp [hu, hr] at h
          · simp [hu, hr] at h
            intro e2 he2
            rw [← h] at he2
            rcases List.mem_cons.mp he2 with h3 | h3
            · rw [h3]
              exact ih4 vb uv hu
            · exact ih2 rest es2 hr e2 h3
    · intro elems es h
      rcases elems with _ | ⟨vb, rest⟩
      · simp [listCookF] at h
        subst h
        intro x hx
        simp at hx
      · rw [listCookF] at h
        rcases hu : UnmarshalRecursiveF f vb with e | uv
        · simp [hu] at h
        · rcases hr : listCookF f rest with e | es2
          · simp [hu, hr] at h
          · simp [hu, hr] at h
            intro x hx
            rw [← h] at hx
            rcases List.mem_cons.mp hx with h3 | h3
            · rw [h3]
              exact ih4 vb uv hu
            · exact ih3 rest es2 hr x h3
    · intro src v h
      rw [UnmarshalRecursiveF] at h
      by_cases hsrc : src.isEmpty
      · simp [hsrc] at h
      · rcases hu : unmarshalRecursiveF f src with e | ⟨u, m⟩
        · simp [hsrc, hu] at h
        · by_cases hlen : src.length ≤ m
          · simp [hsrc, hu, hlen] at h
            exact h ▸ ih1 src u m hu
          · rcases hl : unmarshalLoopF f (src.drop m) with e | vs
            · simp [hsrc, hu, hlen, hl] at h
            · simp [hsrc, hu, hlen, hl] at h
              refine h ▸ goodVal_listr (u :: vs) ?_
              intro x hx
              rcases List.mem_cons.mp hx with h3 | h3
              · exact h3 ▸ ih1 src u m hu
              · exact ih5 (src.drop m) vs hl x h3
    · intro src vs h
      rcases src with _ | ⟨b, r⟩
      · simp [unmarshalLoopF] at h
        subst h
        intro x hx
        simp at hx
      · simp only [unmarshalLoopF] at h
        rcases hu : unmarshalRecursiveF f (b :: r) with e | ⟨u, m⟩
        · simp [hu] at h
        · rcases hl : unmarshalLoopF f ((b :: r).drop m) with e | vs2
          · simp [hu, hl] at h
          · simp [hu, hl] at h
            intro x hx
            rw [← h] at hx
            rcases List.mem_cons.mp hx with h3 | h3
            · exact h3 ▸ ih1 (b :: r) u m hu
            · exact ih5 ((b :: r).drop m) vs2 hl x h3

/-- Claim C9: UnmarshalRecursive fails with the empty error on empty
input; every successful result is built only from primitives,
string-keyed maps and lists (dicts become maps, lists become lists, Obj
bodies are recursively decoded, and no raw codec shape escapes); a
single top-level value is returned unwrapped, and when bytes remain the
result is the list of the first value and all further decoded values in
input order. -/
theorem c9_unmarshalRecursive :
    (UnmarshalRecursive [] = .error .errEmpty)
    ∧ (∀ (src : List Nat) (v : IVal), UnmarshalRecursive src = .ok v → goodVal v = true)
    ∧ (∀ (src : List Nat) (u : IVal) (n : Nat), src ≠ [] →
        unmarshalRecursiveF (2 * src.length + 1) src = .ok (u, n) →
        src.length ≤ n → UnmarshalRecursive src = .ok u)
    ∧ (∀ (src : List Nat) (u : IVal) (n : Nat) (vs : List IVal), src ≠ [] →
        unmarshalRecursiveF (2 * src.length + 1) src = .ok (u, n) →
        n < src.length →
        unmarshalLoopF (2 * src.length + 1) (src.drop n) = .ok vs →
        UnmarshalRecursive src = .ok (.listr (u :: vs))) := by
  refine ⟨rfl, ?_, ?_, ?_⟩
  · intro src v h
    exact (cook_good (2 * src.length + 2)).2.2.2.1 src v h
  · intro src u n hne hu hlen
    rw [UnmarshalRecursive]
    have hf : 2 * src.length + 2 = (2 * src.length + 1) + 1 := rfl
    rw [hf, UnmarshalRecursiveF]
    have hemp : src.isEmpty = false := by
      cases src
      · exact absurd rfl hne
      · rfl
    simp [hemp, hu, hlen]
  · intro src u n vs hne hu hlen hl
    rw [UnmarshalRecursive]
    have hf : 2 * src.length + 2 = (2 * src.length + 1) + 1 := rfl
    rw [hf, UnmarshalRecursiveF]
    have hemp : src.isEmpty = false := by
      cases src
      · exact absurd rfl hne
      · rfl
    have hgt : ¬ (src.length ≤ n) := by omega
    simp [hemp, hu, hgt, hl]

/-- Claim C9, witness: the theorem applied to two consecutive top-level
values, a Null and a True, which decode to the list of both. -/
theorem c9_unmarshalRecursive_witness :
    unmarshalRecursiveF (2 * ([0, 2] : List Nat).length + 1) [0, 2] = .ok (.null, 1)
    ∧ unmarshalLoopF (2 * ([0, 2] : List Nat).length + 1) (([0, 2] : List Nat).drop 1)
        = .ok [.boolv true]
    ∧ UnmarshalRecursive [0, 2] = .ok (.listr (.null :: [.boolv true])) :=
  ⟨rfl, rfl,
    c9_unmarshalRecursive.2.2.2 [0, 2] .null 1 [.boolv true] (by simp) rfl
      (by simp) rfl⟩

/-- Helper: membership in a take is monotone in the count. -/
theorem mem_take_mono {α : Type} {x : α} {l : List α} {m n : Nat}
    (h : x ∈ l.take m) (hmn : m ≤ n) : x ∈ l.take n := by
  have h2 : l.take m = (l.take n).take m := by
    rw [List.take_take]
    rw [min_eq_left hmn]
  rw [h2] at h
  exact List.mem_of_mem_take h

/-- Helper: an element kept among the first L survivors of a weaker
filter, which also satisfies a stronger predicate, is kept among the
first L survivors of the stronger filter. -/
theorem mem_take_filter_of_imp {α : Type} (p q : α → Bool)
    (himp : ∀ x, q x = true → p x = true) :
    ∀ (l : List α) (L : Nat) (x : α),
      x ∈ (l.filter p).take L → q x = true → x ∈ (l.filter q).take L := by
  intro l
  induction l with
  | nil => intro L x hx _; simp at hx
  | cons a l2 ih =>
    intro L x hx hq
    by_cases hpa : p a = true
    · rw [List.filter_cons_of_pos hpa] at hx
      cases L with
      | zero => simp at hx
      | succ L2 =>
        rw [List.take_succ_cons] at hx
        rcases List.mem_cons.mp hx with h1 | h1
        · subst h1
          rw [List.filter_cons_of_pos hq, List.take_succ_cons]
          exact List.mem_cons_self x _
        · have h2 := ih L2 x h1 hq
          by_cases hqa : q a = true
          · rw [List.filter_cons_of_pos hqa, List.take_succ_cons]
            exact List.mem_cons_of_mem a h2
          · rw [List.filter_cons_of_neg (by simpa using hqa)]
            exact mem_take_mono h2 (by omega)
    · have hqa : ¬ q a = true := fun hc => hpa (himp a hc)
      rw [List.filter_cons_of_neg (by simpa using hpa)] at hx
      rw [List.filter_cons_of_neg (by simpa using hqa)]
      exact ih L x hx hq

/-- Helper: truncating the union of the truncated filters equals
truncating the filter of the disjunction, preserving input order. -/
theorem take_filter_or {α : Type} [DecidableEq α] (l : List α) (p q : α → Bool) (L : Nat) :
    (l.filter (fun x =>
        decide (x ∈ (l.filter p).take L) || decide (x ∈ (l.filter q).take L))).take L
      = (l.filter (fun x => p x || q x)).take L := by
  set F := l.filter (fun x => p x || q x) with hF
  set memPred : α → Bool := fun x =>
    decide (x ∈ (l.filter p).take L) || decide (x ∈ (l.filter q).take L) with hm
  have hA : ∀ x, memPred x = true → (p x || q x) = true := by
    intro x hx
    rw [hm] at hx
    simp only [Bool.or_eq_true, decide_eq_true_eq] at hx
    rcases hx with hx | hx
    · have h3 := List.of_mem_filter (List.mem_of_mem_take hx)
      simp [h3]
    · have h3 := List.of_mem_filter (List.mem_of_mem_take hx)
      simp [h3]
  have hB : l.filter memPred = F.filter memPred := by
    rw [hF, List.filter_filter]
    apply List.filter_congr
    intro x _
    cases hmx : memPred x
    · simp
    · simp [hA x hmx]
  have hC : ∀ x ∈ F.take L, memPred x = true := by
    intro x hx
    have hx2 : x ∈ (l.filter (fun y => p y || q y)).take L := by
      rw [hF] at hx
      exact hx
    have hmem : x ∈ l.filter (fun y => p y || q y) := List.mem_of_mem_take hx2
    have hpq := List.of_mem_filter hmem
    have himp1 : ∀ y, p y = true → (p y || q y) = true := by
      intro y hy; simp [hy]
    have himp2 : ∀ y, q y = true → (p y || q y) = true := by
      intro y hy; simp [hy]
    rw [hm]
    simp only [Bool.or_eq_true, decide_eq_true_eq]
    have hpq2 : p x = true ∨ q x = true := by simpa using hpq
    rcases hpq2 with hp | hq2
    · exact Or.inl (mem_take_filter_of_imp _ _ himp1 l L x hx2 hp)
    · exact Or.inr (mem_take_filter_of_imp _ _ himp2 l L x hx2 hq2)
  rw [hB]
  conv_lhs => rw [← List.take_append_drop L F]
  rw [List.filter_append, List.filter_eq_self.mpr hC,
    List.take_append_eq_append_take, List.take_take, Nat.min_self]
  have h2 : List.take (L - (F.take L).length) (List.filter memPred (F.drop L)) = [] := by
    by_cases hlen : L ≤ F.length
    · have h3 : (F.take L).length = L := by
        rw [List.length_take]
        exact min_eq_left hlen
      rw [h3]
      simp
    · have h3 : F.drop L = [] := List.drop_eq_nil_of_le (by omega)
      simp [h3]
  rw [h2, List.append_nil]

/-- Helper: on a one-group or two-group query list whose group matches
are defined, the OR of the groups distributes over the selection test. -/
theorem anyGroupMatch_pair (g1 g2 : List PropQuery) (d : Dict)
    (h1 : PropQueriesMatch g1 d ≠ none) (h2 : PropQueriesMatch g2 d ≠ none) :
    (anyGroupMatch [g1, g2] d == some true)
      = ((anyGroupMatch [g1] d == some true) || (anyGroupMatch [g2] d == some true)) := by
  rcases hb1 : PropQueriesMatch g1 d with _ | b1
  · exact absurd hb1 h1
  · rcases hb2 : PropQueriesMatch g2 d with _ | b2
    · exact absurd hb2 h2
    · cases b1 <;> cases b2 <;> simp [anyGroupMatch, hb1, hb2]

/-- Helper: with distinct first components, membership of a first
component in a projected sublist coincides with membership of the
pair. -/
theorem mem_map_fst_iff (pairs S : List (RoomInfo × Dict))
    (hnd : (pairs.map Prod.fst).Nodup) (hsub : ∀ x ∈ S, x ∈ pairs)
    (pr : RoomInfo × Dict) (hpr : pr ∈ pairs) :
    (pr.1 ∈ S.map Prod.fst) ↔ pr ∈ S := by
  constructor
  · intro h
    rcases List.mem_map.mp h with ⟨pr2, hpr2, heq⟩
    have h3 := List.inj_on_of_nodup_map hnd (hsub pr2 hpr2) hpr heq
    rw [← h3]
    exact hpr2
  · intro h
    exact List.mem_map_of_mem Prod.fst h

/-- Helper: taking a positive count from a cons takes the head. -/
theorem take_pos_cons {α : Type} (a : α) (l : List α) (lim : Nat) (h : 1 ≤ lim) :
    (a :: l).take lim = a :: l.take (lim - 1) := by
  cases lim with
  | zero => omega
  | succ n => simp [List.take_succ_cons]

/-- Helper: characterization of the filter loop: with every evaluated
group defined on the mask-passing rooms, the loop returns the first lim
mask-passing, query-matching rooms in order. -/
theorem filterAux_eq (qs : List (List PropQuery)) (j w : Bool) :
    ∀ (pairs : List (RoomInfo × Dict)) (lim : Nat), 1 ≤ lim →
    (∀ pr ∈ pairs, passMask j w pr.1 = true → anyGroupMatch qs pr.2 ≠ none) →
    filterAux qs j w pairs lim
      = some (((pairs.filter (fun pr => passMask j w pr.1
          && (qs.isEmpty || (anyGroupMatch qs pr.2 == some true)))).map Prod.fst).take lim) := by
  intro pairs
  induction pairs with
  | nil => intro lim _ _; simp [filterAux]
  | cons pr0 rest ih =>
    intro lim hlim hdef
    rcases pr0 with ⟨r, d⟩
    have hdefr : ∀ pr ∈ rest, passMask j w pr.1 = true → anyGroupMatch qs pr.2 ≠ none :=
      fun pr hpr => hdef pr (by simp [hpr])
    by_cases hmask : passMask j w r = true
    · by_cases hqs : qs.isEmpty
      · have hfc : List.filter (fun pr : RoomInfo × Dict => passMask j w pr.1
              && (qs.isEmpty || (anyGroupMatch qs pr.2 == some true))) ((r, d) :: rest)
            = (r, d) :: List.filter (fun pr : RoomInfo × Dict => passMask j w pr.1
              && (qs.isEmpty || (anyGroupMatch qs pr.2 == some true))) rest :=
          List.filter_cons_of_pos (by simp [hmask, hqs])
        rw [filterAux, hfc, List.map_cons, take_pos_cons _ _ lim hlim]
        by_cases hl1 : lim ≤ 1
        · have hz : lim - 1 = 0 := by omega
          simp [hmask, hqs, hl1, hz]
        · rw [ih (lim - 1) (by omega) hdefr]
          simp [hmask, hqs, hl1]
      · rcases hany : anyGroupMatch qs d with _ | b
        · exact absurd hany (hdef (r, d) (by simp) hmask)
        · cases b with
          | true =>
            have hfc : List.filter (fun pr : RoomInfo × Dict => passMask j w pr.1
                  && (qs.isEmpty || (anyGroupMatch qs pr.2 == some true))) ((r, d) :: rest)
                = (r, d) :: List.filter (fun pr : RoomInfo × Dict => passMask j w pr.1
                  && (qs.isEmpty || (anyGroupMatch qs pr.2 == some true))) rest :=
              List.filter_cons_of_pos (by simp [hmask, hany])
            rw [filterAux, hfc, List.map_cons, take_pos_cons _ _ lim hlim]
            by_cases hl1 : lim ≤ 1
            · have hz : lim - 1 = 0 := by omega
              simp [hmask, hqs, hany, hl1, hz]
            · rw [ih (lim - 1) (by omega) hdefr]
              simp [hmask, hqs, hany, hl1]
          | false =>
            have hfc : List.filter (fun pr : RoomInfo × Dict => passMask j w pr.1
                  && (qs.isEmpty || (anyGroupMatch qs pr.2 == some true))) ((r, d) :: rest)
                = List.filter (fun pr : RoomInfo × Dict => passMask j w pr.1
                  && (qs.isEmpty || (anyGroupMatch qs pr.2 == some true))) rest :=
              List.filter_cons_of_neg (by simp [hqs, hany])
            rw [filterAux, hfc]
            rw [ih lim hlim hdefr]
            simp [hmask, hqs, hany]
    · have hmask2 : passMask j w r = false := by
        cases hp : passMask j w r
        · rfl
        · exact absurd hp hmask
      have hfc : List.filter (fun pr : RoomInfo × Dict => passMask j w pr.1
            && (qs.isEmpty || (anyGroupMatch qs pr.2 == some true))) ((r, d) :: rest)
          = List.filter (fun pr : RoomInfo × Dict => passMask j w pr.1
            && (qs.isEmpty || (anyGroupMatch qs pr.2 == some true))) rest :=
        List.filter_cons_of_neg (by simp [hmask2])
      rw [filterAux, hfc]
      rw [ih lim hlim hdefr]
      simp [hmask2]

/-- Helper: characterization of filter on parallel slices. -/
theorem filter_eq (rooms : List RoomInfo) (props : List Dict)
    (qs : List (List PropQuery)) (L : Nat) (j w : Bool)
    (hdef : ∀ pr ∈ rooms.zip props, passMask j w pr.1 = true →
      anyGroupMatch qs pr.2 ≠ none) :
    filter rooms props qs L j w
      = some ((((rooms.zip props).filter (fun pr => passMask j w pr.1
          && (qs.isEmpty || (anyGroupMatch qs pr.2 == some true)))).map
            Prod.fst).take (effLimit rooms.length L)) := by
  by_cases hrn : rooms = []
  · subst hrn
    simp [filter, filterAux, effLimit]
  · have hlen1 : 1 ≤ rooms.length := by
      cases rooms
      · exact absurd rfl hrn
      · simp
    have hlim : 1 ≤ effLimit rooms.length L := by
      rw [effLimit]
      split
      · omega
      · omega
    exact filterAux_eq qs j w (rooms.zip props) (effLimit rooms.length L) hlim hdef

/-- Helper: every room returned by the filter loop passes the enabled
masks. -/
theorem filterAux_mask (qs : List (List PropQuery)) (j w : Bool) :
    ∀ (pairs : List (RoomInfo × Dict)) (lim : Nat) (res : List RoomInfo),
    filterAux qs j w pairs lim = some res →
    ∀ r ∈ res, (j = true → r.Joinable = true) ∧ (w = true → r.Watchable = true) := by
  intro pairs
  induction pairs with
  | nil =>
    intro lim res h r hr
    simp [filterAux] at h
    subst h
    simp at hr
  | cons pr0 rest ih =>
    intro lim res h r hr
    rcases pr0 with ⟨r2, d⟩
    rw [filterAux] at h
    by_cases hmask : passMask j w r2 = true
    · have hflag : (j = true → r2.Joinable = true) ∧ (w = true → r2.Watchable = true) := by
        constructor <;> intro hset <;> subst hset <;>
          simp [passMask, Bool.and_eq_true, Bool.or_eq_true] at hmask <;> tauto
      simp only [hmask, Bool.not_true, Bool.false_eq_true, if_false] at h
      by_cases hqs : qs.isEmpty
      · simp only [hqs, if_true, ite_true] at h
        by_cases hl1 : lim ≤ 1
        · simp only [hl1, if_true, ite_true] at h
          have hres : res = [r2] := by
            injection h with h2
            exact h2.symm
          subst hres
          rcases List.mem_cons.mp hr with h3 | h3
          · subst h3; exact hflag
          · simp at h3
        · simp only [hl1, if_false, ite_false] at h
          rcases hrec : filterAux qs j w rest (lim - 1) with _ | res2
          · rw [hrec] at h; simp at h
          · rw [hrec] at h
            simp at h
            subst h
            rcases List.mem_cons.mp hr with h3 | h3
            · subst h3; exact hflag
            · exact ih (lim - 1) res2 hrec r h3
      · simp only [hqs, if_false, ite_false] at h
        rcases hany : anyGroupMatch qs d with _ | b
        · rw [hany] at h; simp at h
        · rw [hany] at h
          cases b with
          | true =>
            by_cases hl1 : lim ≤ 1
            · simp only [hl1, if_true, ite_true] at h
              have hres : res = [r2] := by
                injection h with h2
                exact h2.symm
              subst hres
              rcases List.mem_cons.mp hr with h3 | h3
              · subst h3; exact hflag
              · simp at h3
            · simp only [hl1, if_false, ite_false] at h
              rcases hrec : filterAux qs j w rest (lim - 1) with _ | res2
              · rw [hrec] at h; simp at h
              · rw [hrec] at h
                simp at h
                subst h
                rcases List.mem_cons.mp hr with h3 | h3
                · subst h3; exact hflag
                · exact ih (lim - 1) res2 hrec r h3
          | false => exact ih lim res h r hr
    · have hmask2 : passMask j w r2 = false := by
        cases hp : passMask j w r2
        · rfl
        · exact absurd hp hmask
      simp only [hmask2, Bool.not_false, if_true] at h
      exact ih lim res h r hr

/-- Claim C2: on distinct rooms with parallel props whose group matches
are defined on mask-passing rooms, filtering with two query groups
equals the input-order-preserving union of the single-group filter
results truncated to the effective limit; every returned room passes
each enabled mask; and the empty query list selects exactly the
mask-passing rooms up to the limit. -/
theorem c2_filter_disjunction (rooms : List RoomInfo) (props : List Dict)
    (g1 g2 : List PropQuery) (L : Nat) (j w : Bool)
    (hnd : rooms.Nodup) (hlen : props.length = rooms.length)
    (hdef : ∀ pr ∈ rooms.zip props, passMask j w pr.1 = true →
      PropQueriesMatch g1 pr.2 ≠ none ∧ PropQueriesMatch g2 pr.2 ≠ none) :
    (∀ A B, filter rooms props [g1] L j w = some A →
      filter rooms props [g2] L j w = some B →
      filter rooms props [g1, g2] L j w
        = some ((rooms.filter (fun r => decide (r ∈ A) || decide (r ∈ B))).take
            (effLimit rooms.length L)))
    ∧ (∀ qs res, filter rooms props qs L j w = some res →
        ∀ r ∈ res, (j = true → r.Joinable = true) ∧ (w = true → r.Watchable = true))
    ∧ (filter rooms props [] L j w
        = some ((((rooms.zip props).filter (fun pr => passMask j w pr.1)).map
            Prod.fst).take (effLimit rooms.length L))) := by
  refine ⟨?_, ?_, ?_⟩
  · intro A B hA hB
    have hdef1 : ∀ pr ∈ rooms.zip props, passMask j w pr.1 = true →
        anyGroupMatch [g1] pr.2 ≠ none := by
      intro pr hpr hm
      have h1 := (hdef pr hpr hm).1
      rcases hb : PropQueriesMatch g1 pr.2 with _ | b
      · exact absurd hb h1
      · cases b <;> simp [anyGroupMatch, hb]
    have hdef2 : ∀ pr ∈ rooms.zip props, passMask j w pr.1 = true →
        anyGroupMatch [g2] pr.2 ≠ none := by
      intro pr hpr hm
      have h2 := (hdef pr hpr hm).2
      rcases hb : PropQueriesMatch g2 pr.2 with _ | b
      · exact absurd hb h2
      · cases b <;> simp [anyGroupMatch, hb]
    have hdef12 : ∀ pr ∈ rooms.zip props, passMask j w pr.1 = true →
        anyGroupMatch [g1, g2] pr.2 ≠ none := by
      intro pr hpr hm
      obtain ⟨h1, h2⟩ := hdef pr hpr hm
      rcases hb1 : PropQueriesMatch g1 pr.2 with _ | b1
      · exact absurd hb1 h1
      · rcases hb2 : PropQueriesMatch g2 pr.2 with _ | b2
        · exact absurd hb2 h2
        · cases b1 <;> cases b2 <;> simp [anyGroupMatch, hb1, hb2]
    have hFA := filter_eq rooms props [g1] L j w hdef1
    have hFB := filter_eq rooms props [g2] L j w hdef2
    have hF12 := filter_eq rooms props [g1, g2] L j w hdef12
    have hs1 : (fun pr : RoomInfo × Dict => passMask j w pr.1
          && (([g1] : List (List PropQuery)).isEmpty
            || (anyGroupMatch [g1] pr.2 == some true)))
        = (fun pr : RoomInfo × Dict => passMask j w pr.1
            && (anyGroupMatch [g1] pr.2 == some true)) := by
      funext pr; simp
    have hs2 : (fun pr : RoomInfo × Dict => passMask j w pr.1
          && (([g2] : List (List PropQuery)).isEmpty
            || (anyGroupMatch [g2] pr.2 == some true)))
        = (fun pr : RoomInfo × Dict => passMask j w pr.1
            && (anyGroupMatch [g2] pr.2 == some true)) := by
      funext pr; simp
    have hs12 : (fun pr : RoomInfo × Dict => passMask j w pr.1
          && (([g1, g2] : List (List PropQuery)).isEmpty
            || (anyGroupMatch [g1, g2] pr.2 == some true)))
        = (fun pr : RoomInfo × Dict => passMask j w pr.1
            && (anyGroupMatch [g1, g2] pr.2 == some true)) := by
      funext pr; simp
    rw [hs1] at hFA
    rw [hs2] at hFB
    rw [hs12] at hF12
    have hAeq : A = (((rooms.zip props).filter (fun pr : RoomInfo × Dict =>
        passMask j w pr.1 && (anyGroupMatch [g1] pr.2 == some true))).map
          Prod.fst).take (effLimit rooms.length L) := by
      rw [hA] at hFA
      exact Option.some.inj hFA
    have hBeq : B = (((rooms.zip props).filter (fun pr : RoomInfo × Dict =>
        passMask j w pr.1 && (anyGroupMatch [g2] pr.2 == some true))).map
          Prod.fst).take (effLimit rooms.length L) := by
      rw [hB] at hFB
      exact Option.some.inj hFB
    have hmapA : A = (((rooms.zip props).filter (fun pr : RoomInfo × Dict =>
        passMask j w pr.1 && (anyGroupMatch [g1] pr.2 == some true))).take
          (effLimit rooms.length L)).map Prod.fst := by
      rw [hAeq, List.map_take]
    have hmapB : B = (((rooms.zip props).filter (fun pr : RoomInfo × Dict =>
        passMask j w pr.1 && (anyGroupMatch [g2] pr.2 == some true))).take
          (effLimit rooms.length L)).map Prod.fst := by
      rw [hBeq, List.map_take]
    have hrooms : rooms = (rooms.zip props).map Prod.fst :=
      (List.map_fst_zip rooms props (by omega)).symm
    have hndp : ((rooms.zip props).map Prod.fst).Nodup := by
      rw [← hrooms]; exact hnd
    have h12 : (rooms.zip props).filter (fun pr : RoomInfo × Dict =>
          passMask j w pr.1 && (anyGroupMatch [g1, g2] pr.2 == some true))
        = (rooms.zip props).filter (fun pr : RoomInfo × Dict =>
            (passMask j w pr.1 && (anyGroupMatch [g1] pr.2 == some true))
            || (passMask j w pr.1 && (anyGroupMatch [g2] pr.2 == some true))) := by
      apply List.filter_congr
      intro pr hpr
      by_cases hm : passMask j w pr.1 = true
      · obtain ⟨h1, h2⟩ := hdef pr hpr hm
        rw [hm]
        simp only [Bool.true_and]
        exact anyGroupMatch_pair g1 g2 pr.2 h1 h2
      · have hm2 : passMask j w pr.1 = false := by
          cases hp : passMask j w pr.1
          · rfl
          · exact absurd hp hm
        rw [hm2]
        simp
    have hU : rooms.filter (fun r => decide (r ∈ A) || decide (r ∈ B))
        = ((rooms.zip props).filter (fun pr : RoomInfo × Dict =>
            decide (pr ∈ ((rooms.zip props).filter (fun pr2 : RoomInfo × Dict =>
              passMask j w pr2.1 && (anyGroupMatch [g1] pr2.2 == some true))).take
                (effLimit rooms.length L))
            || decide (pr ∈ ((rooms.zip props).filter (fun pr2 : RoomInfo × Dict =>
              passMask j w pr2.1 && (anyGroupMatch [g2] pr2.2 == some true))).take
                (effLimit rooms.length L)))).map Prod.fst := by
      conv_lhs => rw [hrooms]
      rw [List.filter_map]
      congr 1
      apply List.filter_congr
      intro pr hpr
      have hsubA : ∀ x ∈ ((rooms.zip props).filter (fun pr2 : RoomInfo × Dict =>
          passMask j w pr2.1 && (anyGroupMatch [g1] pr2.2 == some true))).take
            (effLimit rooms.length L), x ∈ rooms.zip props := by
        intro x hx
        exact (List.mem_filter.mp (List.mem_of_mem_take hx)).1
      have hsubB : ∀ x ∈ ((rooms.zip props).filter (fun pr2 : RoomInfo × Dict =>
          passMask j w pr2.1 && (anyGroupMatch [g2] pr2.2 == some true))).take
            (effLimit rooms.length L), x ∈ rooms.zip props := by
        intro x hx
        exact (List.mem_filter.mp (List.mem_of_mem_take hx)).1
      have e1 := mem_map_fst_iff (rooms.zip props) _ hndp hsubA pr hpr
      have e2 := mem_map_fst_iff (rooms.zip props) _ hndp hsubB pr hpr
      simp only [Function.comp]
      rw [hmapA, hmapB]
      rw [decide_eq_decide.mpr e1, decide_eq_decide.mpr e2]
    rw [hF12, hU]
    congr 1
    rw [h12]
    rw [← List.map_take, ← List.map_take]
    congr 1
    convert (take_filter_or (rooms.zip props)
      (fun pr2 : RoomInfo × Dict =>
        passMask j w pr2.1 && (anyGroupMatch [g1] pr2.2 == some true))
      (fun pr2 : RoomInfo × Dict =>
        passMask j w pr2.1 && (anyGroupMatch [g2] pr2.2 == some true))
      (effLimit rooms.length L)).symm using 2
    apply List.filter_congr
    intro x _
    congr 1 <;> exact decide_eq_decide.mpr Iff.rfl
  · intro qs res hres r hr
    exact filterAux_mask qs j w (rooms.zip props) (effLimit rooms.length L) res hres r hr
  · have hdef0 : ∀ pr ∈ rooms.zip props, passMask j w pr.1 = true →
        anyGroupMatch [] pr.2 ≠ none := by
      intro pr _ _
      simp [anyGroupMatch]
    have hs0 : (fun pr : RoomInfo × Dict => passMask j w pr.1
          && (([] : List (List PropQuery)).isEmpty
            || (anyGroupMatch [] pr.2 == some true)))
        = (fun pr : RoomInfo × Dict => passMask j w pr.1) := by
      funext pr; simp
    have h0 := filter_eq rooms props [] L j w hdef0
    rw [hs0] at h0
    exact h0

/-- Claim C2, witness: the disjunction theorem applied to two rooms, one
matching each single-group query. -/
theorem c2_filter_disjunction_witness :
    filter [⟨"a", 1, true, true, true, 0, 0, []⟩, ⟨"b", 1, true, true, true, 0, 0, []⟩]
        [([([120], [3, 1])] : Dict), ([([120], [3, 2])] : Dict)]
        [[⟨[120], .OpEqual, [3, 1]⟩]] 0 true false
      = some [⟨"a", 1, true, true, true, 0, 0, []⟩]
    ∧ filter [⟨"a", 1, true, true, true, 0, 0, []⟩, ⟨"b", 1, true, true, true, 0, 0, []⟩]
        [([([120], [3, 1])] : Dict), ([([120], [3, 2])] : Dict)]
        [[⟨[120], .OpEqual, [3, 2]⟩]] 0 true false
      = some [⟨"b", 1, true, true, true, 0, 0, []⟩]
    ∧ filter [⟨"a", 1, true, true, true, 0, 0, []⟩, ⟨"b", 1, true, true, true, 0, 0, []⟩]
        [([([120], [3, 1])] : Dict), ([([120], [3, 2])] : Dict)]
        [[⟨[120], .OpEqual, [3, 1]⟩], [⟨[120], .OpEqual, [3, 2]⟩]] 0 true false
      = some (([⟨"a", 1, true, true, true, 0, 0, []⟩,
            ⟨"b", 1, true, true, true, 0, 0, []⟩].filter (fun r =>
          decide (r ∈ [(⟨"a", 1, true, true, true, 0, 0, []⟩ : RoomInfo)])
          || decide (r ∈ [(⟨"b", 1, true, true, true, 0, 0, []⟩ : RoomInfo)]))).take
            (effLimit 2 0)) :=
  ⟨rfl, rfl,
    (c2_filter_disjunction
      [⟨"a", 1, true, true, true, 0, 0, []⟩, ⟨"b", 1, true, true, true, 0, 0, []⟩]
      [([([120], [3, 1])] : Dict), ([([120], [3, 2])] : Dict)]
      [⟨[120], .OpEqual, [3, 1]⟩] [⟨[120], .OpEqual, [3, 2]⟩] 0 true false
      (by decide) rfl (by decide)).1
      [⟨"a", 1, true, true, true, 0, 0, []⟩] [⟨"b", 1, true, true, true, 0, 0, []⟩]
      rfl rfl⟩

end Theorems

end Wsnet2
